import Mathlib

set_option maxHeartbeats 1000000
set_option maxRecDepth 8000

/-
Verification development for the Crypto Weekly Newsletter automation script
(`automate_newsletter.py`).  The script is embedded shallowly:

* text is modelled as `List Char` (`Str`);
* Python `str.replace` is modelled by `replaceAll`, which replaces all
  non-overlapping occurrences left to right;
* dates are modelled as integer day numbers counted from 1970-01-01
  (a Thursday), converted to the proleptic Gregorian calendar by
  `civilFromDays` (the standard civil-from-days algorithm, which is the
  calendar Python's `datetime` implements); `strftime` format `%B %d`
  produces the full month name and a zero-padded two-digit day, `%Y` the
  year number;
* numeric values are modelled as rationals; the renderings of Python's
  number formatting (`str(float)`, `:,.0f`, `:,.2f`, `:.6f`, `:.4f`,
  `:+.1f`) are modelled by executable decimal formatters.  The claims
  proved below never depend on the fine rounding behaviour of these
  formatters, only on their output structure and character classes;
* network, file-system and environment effects are modelled by a `World`
  record of externally supplied outcomes, and `main` returns a ledger of
  the effects it performed.
-/

abbrev Str := List Char

def str (s : String) : Str := s.data

/-- `startsL p s` holds when the pattern `p` is a prefix of `s`. -/
def startsL : Str → Str → Bool
  | [], _ => true
  | _ :: _, [] => false
  | a :: p, b :: s => a == b && startsL p s

/-- Number of positions of `s` at which the pattern `p` occurs. -/
def countOcc (p : Str) : Str → Nat
  | [] => 0
  | c :: s => (if startsL p (c :: s) then 1 else 0) + countOcc p s

/-- The pattern `p` occurs somewhere in `s`. -/
def occursIn (p s : Str) : Prop := countOcc p s ≠ 0

instance (p s : Str) : Decidable (occursIn p s) := by
  unfold occursIn; infer_instance

/-- Structural worker for `replaceAll`: the fuel bounds the number of
characters still to scan, so the recursion is structural and evaluates
inside the kernel.  With fuel at least the length of the text the fuel
never runs out. -/
def replaceAllAux (p r : Str) : Nat → Str → Str
  | 0, s => s
  | _ + 1, [] => []
  | fuel + 1, c :: s =>
    if startsL p (c :: s) = true ∧ p ≠ [] then
      r ++ replaceAllAux p r fuel ((c :: s).drop p.length)
    else
      c :: replaceAllAux p r fuel s

/-- Python's `str.replace`: replace every occurrence of `p` by `r`,
scanning left to right and skipping over each replacement. -/
def replaceAll (p r s : Str) : Str := replaceAllAux p r s.length s

/- ------------------- decimal renderings of numbers ------------------- -/

def digitChars : Str := str ("0123456789")

def digitChar (d : Nat) : Char := List.getD digitChars (d % 10) ('0')

def natReprAux : Nat → Nat → Str
  | 0, _ => []
  | fuel + 1, n =>
    if n < 10 then [digitChar n]
    else natReprAux fuel (n / 10) ++ [digitChar (n % 10)]

/-- Decimal digits of a natural number, most significant first. -/
def natRepr (n : Nat) : Str := natReprAux (n + 1) n

def intRepr (i : Int) : Str :=
  if i < 0 then '-' :: natRepr i.natAbs else natRepr i.natAbs

/-- `fuel` decimal digits of the fraction `n / d` (expects `n < d`),
computed by repeated multiplication by 10. -/
def fracDigitsND : Nat → Nat → Nat → Str
  | 0, _, _ => []
  | fuel + 1, n, d => digitChar (n * 10 / d) :: fracDigitsND fuel (n * 10 % d) d

/-- Model of Python's `str` on a (float-valued) number: sign, integer part,
decimal point, fractional digits (12 digits, computed from the reduced
numerator and denominator so that evaluation stays kernel-friendly). -/
def pyNumRepr (q : ℚ) : Str :=
  (if q.num < 0 then ['-'] else []) ++
    natRepr (q.num.natAbs / q.den) ++
      '.' :: fracDigitsND 12 (q.num.natAbs % q.den) q.den

/-- Two-digit zero padding, as in `strftime` `%d` and `.2f` fractions. -/
def pad2 (n : Nat) : Str := if n < 10 then '0' :: natRepr n else natRepr n

def padZeros (k : Nat) (s : Str) : Str := List.replicate (k - s.length) '0' ++ s

/-- Insert a thousands separator every three digits, input reversed. -/
def commaRev : Nat → Str → Str
  | _, [] => []
  | k, c :: rest =>
    if k % 3 == 0 && k ≠ 0 then ',' :: c :: commaRev 1 rest
    else c :: commaRev (k + 1) rest

def addCommas (s : Str) : Str := (commaRev 0 s.reverse).reverse

/-- Round `q` to `k` decimal places (half up), returning the scaled
integer: the floor of `q * 10 ^ k + 1 / 2`, computed on the numerator and
denominator. -/
def roundDec (k : Nat) (q : ℚ) : Int :=
  (2 * q.num * ((10 ^ k : Nat) : Int) + (q.den : Int)) / (2 * (q.den : Int))

/-- Round `|q|` to `k` decimal places (half up), as a natural number. -/
def roundDecN (k : Nat) (q : ℚ) : Nat :=
  (2 * q.num.natAbs * 10 ^ k + q.den) / (2 * q.den)

/-- Python `{:,.0f}`. -/
def fmtComma0 (q : ℚ) : Str :=
  let n := roundDec 0 q
  (if n < 0 then ['-'] else []) ++ addCommas (natRepr n.natAbs)

/-- Python `{:,.2f}`. -/
def fmtComma2 (q : ℚ) : Str :=
  let n := roundDec 2 q
  (if n < 0 then ['-'] else []) ++
    addCommas (natRepr (n.natAbs / 100)) ++ '.' :: pad2 (n.natAbs % 100)

/-- Python `{:.kf}` with no thousands separator. -/
def fmtFixed (k : Nat) (q : ℚ) : Str :=
  let n := roundDec k q
  (if n < 0 then ['-'] else []) ++
    natRepr (n.natAbs / 10 ^ k) ++ '.' :: padZeros k (natRepr (n.natAbs % 10 ^ k))

/-- Python `{:+.1f}`: explicit sign, one decimal. -/
def fmtSign1 (q : ℚ) : Str :=
  let n := roundDec 1 q
  (if n < 0 then ['-'] else ['+']) ++
    natRepr (n.natAbs / 10) ++ '.' :: natRepr (n.natAbs % 10)

/-- Python `{abs(x):.1f}`. -/
def fmtAbs1 (q : ℚ) : Str :=
  let n := roundDecN 1 q
  natRepr (n / 10) ++ '.' :: natRepr (n % 10)

/- ------------------- calendar ------------------- -/

/-- Python `date.weekday()` (Monday = 0) of the day number `z`
(days since 1970-01-01, which was a Thursday). -/
def weekdayOf (z : Int) : Int := (z + 3).emod 7

/-- Civil-from-days: day number to (year, month, day) in the proleptic
Gregorian calendar. -/
def civilFromDays (z : Int) : Int × Nat × Nat :=
  let zs := z + 719468
  let era : Int := (if 0 ≤ zs then zs else zs - 146096) / 146097
  let doe : Nat := (zs - era * 146097).toNat
  let yoe : Nat := (doe - doe / 1460 + doe / 36524 - doe / 146096) / 365
  let doy : Nat := doe - (365 * yoe + yoe / 4 - yoe / 100)
  let mp : Nat := (5 * doy + 2) / 153
  let d : Nat := doy - (153 * mp + 2) / 5 + 1
  let m : Nat := if mp < 10 then mp + 3 else mp - 9
  (era * 400 + yoe + (if mp < 10 then 0 else 1), m, d)

def yearOf (z : Int) : Int := (civilFromDays z).1
def monthOf (z : Int) : Nat := (civilFromDays z).2.1
def dayOf (z : Int) : Nat := (civilFromDays z).2.2

/-- `strftime` `%B`: full month name. -/
def monthName : Nat → Str
  | 1 => str ("January")
  | 2 => str ("February")
  | 3 => str ("March")
  | 4 => str ("April")
  | 5 => str ("May")
  | 6 => str ("June")
  | 7 => str ("July")
  | 8 => str ("August")
  | 9 => str ("September")
  | 10 => str ("October")
  | 11 => str ("November")
  | _ => str ("December")

/-- `strftime("%B %d")`: month name and zero-padded day of month. -/
def strftimeBd (z : Int) : Str := monthName (monthOf z) ++ ' ' :: pad2 (dayOf z)

/-- `strftime("%B %d, %Y")`. -/
def strftimeBdY (z : Int) : Str :=
  strftimeBd z ++ ',' :: ' ' :: intRepr (yearOf z)

/-- `(today.weekday() - 4) % 7` from `get_week_range`. -/
def daysSinceFriday (z : Int) : Int := (weekdayOf z - 4).emod 7

/-- Day number of `last_friday` in `get_week_range`. -/
def weekStartDay (z : Int) : Int := z - daysSinceFriday z

/-- Day number of `next_friday` in `get_week_range`. -/
def weekEndDay (z : Int) : Int := weekStartDay z + 7

/-- `get_week_range`, as a function of the current day number: the pair
`(last_friday.strftime("%B %d"), next_friday.strftime("%B %d, %Y"))`. -/
def get_week_range (z : Int) : Str × Str :=
  (strftimeBd (weekStartDay z), strftimeBdY (weekEndDay z))

/- ------------------- data model ------------------- -/

/-- One entry of the `prices` dict built by `fetch_crypto_prices`. -/
structure PriceRec where
  price : ℚ
  change24h : ℚ
  volume24h : Option ℚ
  marketCap : Option ℚ
  ath : ℚ
  atl : ℚ
deriving DecidableEq

/-- The full `prices` dict: its keys are always exactly
`btc, eth, usdt, dai, pls, hex`. -/
structure Prices where
  btc : PriceRec
  eth : PriceRec
  usdt : PriceRec
  dai : PriceRec
  pls : PriceRec
  hex : PriceRec

/-- The dict as an association list, in the order the literal builds it. -/
def Prices.toAList (p : Prices) : List (Str × PriceRec) :=
  [(str ("btc"), p.btc), (str ("eth"), p.eth), (str ("usdt"), p.usdt),
   (str ("dai"), p.dai), (str ("pls"), p.pls), (str ("hex"), p.hex)]

/-- A CoinGecko per-coin row with all fields the script reads present.
Fields read through `.get(..., 0)` in the script are `Option`-valued. -/
structure CoinRowFull where
  usd : ℚ
  usd24hChange : ℚ
  usd24hVol : ℚ
  usdMarketCap : ℚ

structure CoinRowOptChange where
  usd : ℚ
  usd24hChange : Option ℚ
  usd24hVol : ℚ
  usdMarketCap : ℚ

/-- The parsed JSON body returned by the CoinGecko `simple/price` call. -/
structure CoinResp where
  bitcoin : CoinRowFull
  ethereum : CoinRowFull
  tether : CoinRowOptChange
  dai : CoinRowOptChange

/-- The hardcoded placeholder record for PLS (not on CoinGecko). -/
def plsRecord : PriceRec :=
  ⟨0.000089, 12.4, none, none, 0.000456, 0.000021⟩

/-- The hardcoded placeholder record for HEX (not on CoinGecko). -/
def hexRecord : PriceRec :=
  ⟨0.0041, 8.7, none, none, 0.5701, 0.00019⟩

/-- `fetch_crypto_prices`, as a function of the parsed upstream response:
the construction of the `prices` dict from the JSON data, with the
hardcoded `ath`/`atl` history and the hardcoded `pls`/`hex` rows. -/
def fetch_crypto_prices (data : CoinResp) : Prices where
  btc := ⟨data.bitcoin.usd, data.bitcoin.usd24hChange,
          some data.bitcoin.usd24hVol, some data.bitcoin.usdMarketCap,
          73750, 67.81⟩
  eth := ⟨data.ethereum.usd, data.ethereum.usd24hChange,
          some data.ethereum.usd24hVol, some data.ethereum.usdMarketCap,
          4878, 0.43⟩
  usdt := ⟨data.tether.usd, data.tether.usd24hChange.getD 0,
           some data.tether.usd24hVol, some data.tether.usdMarketCap,
           1.32, 0.57⟩
  dai := ⟨data.dai.usd, data.dai.usd24hChange.getD 0,
          some data.dai.usd24hVol, some data.dai.usdMarketCap,
          1.22, 0.89⟩
  pls := ⟨0.000089, 12.4, none, none, 0.000456, 0.000021⟩
  hex := ⟨0.0041, 8.7, none, none, 0.5701, 0.00019⟩

/-- Parsed body of the Fear & Greed API response: the script applies
`int(...)` to the `value` field; `value` here is that parsed integer. -/
structure FgResp where
  value : Int
  value_classification : Str

structure SentimentReading where
  value : Int
  classification : Str

/-- `fetch_fear_greed_index`, as a function of the parsed response body. -/
def fetch_fear_greed_index (data : FgResp) : SentimentReading :=
  ⟨data.value, data.value_classification⟩

/-- The environment variables the script reads. -/
structure EnvConfig where
  github_token : Option Str
  github_username : Option Str

/- ------------------- HTML generation ------------------- -/

def dateTok : Str := str ("\x7b\x7bDATE_RANGE\x7d\x7d")

def priceTok : Str := str ("// \x7b\x7bPRICE_DATA\x7d\x7d")

def fgValTok : Str := str ("\x7b\x7bFEAR_GREED_VALUE\x7d\x7d")

def fgClsTok : Str := str ("\x7b\x7bFEAR_GREED_CLASS\x7d\x7d")

/-- Python `str.upper()` (on the character classes that occur here). -/
def upperStr (s : Str) : Str := s.map Char.toUpper

/-- The two-character token `\x7b\x7b` that opens every placeholder. -/
def dblBrace : Str := str ("\x7b\x7b")

/-- One line of the `realTimePrices` JavaScript literal (the appends are
grouped to the right). -/
def coinJs (name : Str) (r : PriceRec) : Str :=
  name ++ (str (": \x7b price: ") ++ (pyNumRepr r.price ++
    (str (", change: ") ++ (pyNumRepr r.change24h ++
      (str (", ath: ") ++ (pyNumRepr r.ath ++
        (str (", atl: ") ++ (pyNumRepr r.atl ++ str (" \x7d")))))))))

/-- The `price_js` f-string of `generate_html` (appends grouped to the
right). -/
def priceJs (p : Prices) : Str :=
  str ("\n        const realTimePrices = \x7b\n            ") ++
    (coinJs (str ("btc")) p.btc ++ (str (",\n            ") ++
      (coinJs (str ("eth")) p.eth ++ (str (",\n            ") ++
        (coinJs (str ("pls")) p.pls ++ (str (",\n            ") ++
          (coinJs (str ("hex")) p.hex ++ (str (",\n            ") ++
            (coinJs (str ("usdt")) p.usdt ++ (str (",\n            ") ++
              (coinJs (str ("dai")) p.dai ++
                str ("\n        \x7d;\n    "))))))))))))

def renderStep1 (wr : Str × Str) (html : Str) : Str :=
  replaceAll dateTok (wr.1 ++ str (" – ") ++ wr.2) html

def renderStep2 (p : Prices) (html : Str) : Str :=
  replaceAll priceTok (priceJs p) html

def renderStep3 (v : Int) (html : Str) : Str :=
  replaceAll fgValTok (intRepr v) html

def renderStep4 (cls : Str) (html : Str) : Str :=
  replaceAll fgClsTok (upperStr cls) html

/-- `generate_html`, as a function of the template file's contents: the
four successive `str.replace` calls. -/
def generate_html (template : Str) (prices : Prices)
    (fear_greed : SentimentReading) (week_range : Str × Str) : Str :=
  renderStep4 fear_greed.classification
    (renderStep3 fear_greed.value
      (renderStep2 prices
        (renderStep1 week_range template)))

/- ------------------- social media ------------------- -/

def greenCircle : Str := str ("🟢")

def redCircle : Str := str ("🔴")

/-- `"🟢" if change > 0 else "🔴"` — the emoji picked for a 24h change. -/
def changeEmoji (c : ℚ) : Str := if 0 < c then greenCircle else redCircle

/-- `'up' if change > 0 else 'down'` — the word picked for a 24h change. -/
def upDownWord (c : ℚ) : Str := if 0 < c then str ("up") else str ("down")

/-- Tweet 1 (header) of `generate_twitter_thread`. -/
def tweet1 (wr : Str × Str) : Str :=
  str ("🧠 CRYPTO INTEL WEEKLY\n") ++ wr.1 ++ str (" – ") ++ wr.2 ++
  str ("\n\nYour weekly dose of crypto market insights 🔥\n\n📊 Price movements\n💧 Liquidity flows\n🌍 Global regulations\n📣 Top influencer takes\n\nThread below 👇")

/-- Tweet 2 (price summary) of `generate_twitter_thread`. -/
def tweet2 (p : Prices) : Str :=
  str ("📈 PRICE MOVERS\n\nBTC: $") ++ fmtComma0 p.btc.price ++
  str (" (") ++ fmtSign1 p.btc.change24h ++ str ("%) ") ++ changeEmoji p.btc.change24h ++
  str ("\nETH: $") ++ fmtComma2 p.eth.price ++
  str (" (") ++ fmtSign1 p.eth.change24h ++ str ("%) ") ++ changeEmoji p.eth.change24h ++
  str ("\nPLS: $") ++ fmtFixed 6 p.pls.price ++
  str (" (") ++ fmtSign1 p.pls.change24h ++ str ("%) ") ++ changeEmoji p.pls.change24h ++
  str ("\nHEX: $") ++ fmtFixed 4 p.hex.price ++
  str (" (") ++ fmtSign1 p.hex.change24h ++ str ("%) ") ++ changeEmoji p.hex.change24h ++
  str ("\n\n#Bitcoin #Ethereum #Crypto")

/-- Tweet 3 (call to action) of `generate_twitter_thread`; it reads the
`GITHUB_USERNAME` environment variable with default `'your-username'`. -/
def tweet3 (env : EnvConfig) : Str :=
  str ("📰 Read the full newsletter with charts & analysis:\nhttps://") ++
  env.github_username.getD (str ("your-username")) ++
  str (".github.io/crypto-intel-weekly\n\n🔔 Follow @sanjeev_kumar_c for weekly crypto intelligence\n♻️ RT to share with your crypto community\n\n#CryptoNews #Newsletter")

/-- `generate_twitter_thread`.  Besides its two Python parameters it takes
the ambient process environment, which the third tweet reads. -/
def generate_twitter_thread (env : EnvConfig) (prices : Prices)
    (week_range : Str × Str) : List Str :=
  [tweet1 week_range, tweet2 prices, tweet3 env]

/-- `generate_instagram_caption`.  It takes the ambient process
environment on the same footing as the thread generator, but never
reads it. -/
def generate_instagram_caption (_env : EnvConfig) (p : Prices)
    (wr : Str × Str) : Str :=
  str ("🧠 CRYPTO INTEL WEEKLY | ") ++ wr.1 ++ str (" – ") ++ wr.2 ++
  str ("\n\nThis week in crypto:\n📈 BTC ") ++ upDownWord p.btc.change24h ++
  str (" ") ++ fmtAbs1 p.btc.change24h ++ str ("% to $") ++ fmtComma0 p.btc.price ++
  str ("\n📈 ETH ") ++ upDownWord p.eth.change24h ++
  str (" ") ++ fmtAbs1 p.eth.change24h ++ str ("% to $") ++ fmtComma2 p.eth.price ++
  str ("\n🚀 PLS ") ++ upDownWord p.pls.change24h ++
  str (" ") ++ fmtAbs1 p.pls.change24h ++
  str ("%\n💎 HEX ") ++ upDownWord p.hex.change24h ++
  str (" ") ++ fmtAbs1 p.hex.change24h ++
  str ("%\n\nSwipe 👉 for detailed charts, data & analysis\n\nFull newsletter: Link in bio\n\n---\n\n#CryptoNews #Bitcoin #Ethereum #PulseChain #HEX #DeFi #CryptoTrading #Web3 #Blockchain #CryptoNewsletter #CryptoIntel #CryptoAnalysis #BTC #ETH #Stablecoins #CryptoMarket #DigitalAssets\n\nDrop a 🔥 if you found this useful!")

/- ------------------- deployment and main ------------------- -/

abbrev PyErr := Str

/-- The observable outcome of one `deploy_to_github` call: how many
network requests it made, whether a library call raised, and whether the
final PUT reported 200/201. -/
structure DeployOutcome where
  netCalls : Nat
  raised : Option PyErr
  succeeded : Bool

/-- `deploy_to_github`: a GET for the current file SHA, then a PUT with
the new content.  A non-2xx PUT is only printed, not raised. -/
def deploy_to_github (getSha : Except PyErr Str)
    (putRes : Except PyErr Bool) : DeployOutcome :=
  match getSha with
  | .error e => ⟨1, some e, false⟩
  | .ok _ =>
    match putRes with
    | .error e => ⟨2, some e, false⟩
    | .ok ok => ⟨2, none, ok⟩

/-- Externally supplied outcomes of every effect the script performs:
the two data fetches, the current date, the template file (if present),
the environment, the deployment network calls, and the file writes. -/
structure World where
  pricesResp : Except PyErr CoinResp
  fgResp : Except PyErr FgResp
  today : Int
  template : Option Str
  env : EnvConfig
  deployGetSha : Except PyErr Str
  deployPutRes : Except PyErr Bool
  writeIndexRes : Except PyErr Unit
  writeTwitterRes : Except PyErr Unit
  writeInstaRes : Except PyErr Unit

/-- Ledger of the effects one run of `main` performed.  File fields hold
the content written, `none` when the file was not written. -/
structure RunResult where
  deployInvoked : Bool
  deployNetCalls : Nat
  indexFile : Option Str
  twitterFile : Option (List Str)
  instaFile : Option Str
  errorCaught : Bool
  exitCode : Nat

/-- Steps 4–5 of `main`: generate and save the Twitter thread, then the
Instagram caption.  Runs in both the template-present and
template-missing branches. -/
def socialPhase (dI : Bool) (dC : Nat) (iF : Option Str) (w : World)
    (p : Prices) (wr : Str × Str) : RunResult :=
  match w.writeTwitterRes with
  | .error _ => ⟨dI, dC, iF, none, none, true, 0⟩
  | .ok _ =>
    match w.writeInstaRes with
    | .error _ => ⟨dI, dC, iF, some (generate_twitter_thread w.env p wr), none, true, 0⟩
    | .ok _ => ⟨dI, dC, iF, some (generate_twitter_thread w.env p wr),
                some (generate_instagram_caption w.env p wr), false, 0⟩

/-- The `main` function (named `mainRun` since Lean reserves `main` for
executable entry points): the whole `try` body with its single catch-all handler.  Any
step that raises jumps to the handler, which logs and returns normally;
the process exit code is 0 on every path. -/
def mainRun (w : World) : RunResult :=
  match w.pricesResp with
  | .error _ => ⟨false, 0, none, none, none, true, 0⟩
  | .ok presp =>
    match w.fgResp with
    | .error _ => ⟨false, 0, none, none, none, true, 0⟩
    | .ok fresp =>
      let prices := fetch_crypto_prices presp
      let fg := fetch_fear_greed_index fresp
      let wr := get_week_range w.today
      match w.template with
      | some tpl =>
        let html := generate_html tpl prices fg wr
        match w.writeIndexRes with
        | .error _ => ⟨false, 0, none, none, none, true, 0⟩
        | .ok _ =>
          match w.env.github_token, w.env.github_username with
          | some _, some _ =>
            let d := deploy_to_github w.deployGetSha w.deployPutRes
            match d.raised with
            | some _ => ⟨true, d.netCalls, some html, none, none, true, 0⟩
            | none => socialPhase true d.netCalls (some html) w prices wr
          | some _, none => socialPhase false 0 (some html) w prices wr
          | none, _ => socialPhase false 0 (some html) w prices wr
      | none => socialPhase false 0 none w prices wr


/- ------------------- sample inputs for concrete theorems ------------------- -/

/-- A template holding each recognized placeholder exactly once. -/
def sampleTemplate : Str := dateTok ++ priceTok ++ fgValTok ++ fgClsTok

/-- A concrete `prices` value. -/
def samplePrices : Prices :=
  ⟨⟨1, 1, none, none, 1, 1⟩, ⟨1, 1, none, none, 1, 1⟩, ⟨1, 1, none, none, 1, 1⟩,
   ⟨1, 1, none, none, 1, 1⟩, ⟨1, 1, none, none, 1, 1⟩, ⟨1, 1, none, none, 1, 1⟩⟩

/-- A concrete CoinGecko response. -/
def sampleCoinResp : CoinResp :=
  ⟨⟨1, 1, 1, 1⟩, ⟨1, 1, 1, 1⟩, ⟨1, none, 1, 1⟩, ⟨1, none, 1, 1⟩⟩

/-- A concrete week range. -/
def sampleWeek : Str × Str := (str ("Jan"), str ("Feb"))

/-- A concrete world with no credentials configured and all data fetches
and file writes succeeding. -/
def sampleWorld : World :=
  ⟨.ok sampleCoinResp, .ok ⟨50, str ("Greed")⟩, 19846, none, ⟨none, none⟩,
   .ok (str ("sha")), .ok true, .ok (), .ok (), .ok ()⟩

/- ===================== theorems ===================== -/

theorem startsL_append_self (p t : Str) : startsL p (p ++ t) = true := by
  induction p with
  | nil => rfl
  | cons a p ih => simp [startsL, ih]

theorem startsL_mono (p u v : Str) (h : startsL p u = true) :
    startsL p (u ++ v) = true := by
  induction p generalizing u with
  | nil => rfl
  | cons a p ih =>
    cases u with
    | nil => simp [startsL] at h
    | cons b u =>
      simp only [startsL, Bool.and_eq_true, beq_iff_eq] at h
      simp only [List.cons_append, startsL, Bool.and_eq_true, beq_iff_eq]
      exact ⟨h.1, ih u h.2⟩

theorem countOcc_cons (q : Str) (c : Char) (s : Str) :
    countOcc q (c :: s) = (if startsL q (c :: s) then 1 else 0) + countOcc q s := rfl

theorem occursIn_append_left (q s t : Str) (h : occursIn q t) :
    occursIn q (s ++ t) := by
  unfold occursIn at *
  induction s with
  | nil => exact h
  | cons c s ih =>
    rw [List.cons_append, countOcc_cons]
    split <;> omega

theorem occursIn_append_right (q t s : Str) (h : occursIn q t) :
    occursIn q (t ++ s) := by
  unfold occursIn at *
  induction t with
  | nil => simp [countOcc] at h
  | cons c t ih =>
    rw [countOcc_cons] at h
    rw [List.cons_append, countOcc_cons]
    by_cases hs : startsL q (c :: t) = true
    · have h2 : startsL q (c :: (t ++ s)) = true := by
        have := startsL_mono q (c :: t) s hs
        rwa [List.cons_append] at this
      simp [h2]
    · have hs2 : startsL q (c :: t) = false := by
        cases hv : startsL q (c :: t)
        · rfl
        · exact absurd hv hs
      rw [hs2] at h
      simp only [Bool.false_eq_true, if_false, Nat.zero_add] at h
      have := ih h
      split <;> omega

theorem occursIn_self_append (q t : Str) (h : q ++ t ≠ []) : occursIn q (q ++ t) := by
  unfold occursIn
  cases q with
  | nil =>
    cases t with
    | nil => simp at h
    | cons c t => rw [List.nil_append, countOcc_cons]; simp [startsL]
  | cons a q =>
    rw [List.cons_append, countOcc_cons]
    have : startsL (a :: q) ((a :: q) ++ t) = true := startsL_append_self (a :: q) t
    rw [List.cons_append] at this
    simp [this]

theorem occursIn_nil_of_ne (s : Str) (h : s ≠ []) : occursIn [] s := by
  cases s with
  | nil => exact absurd rfl h
  | cons c t => unfold occursIn; rw [countOcc_cons]; simp [startsL]

theorem occursIn_self (q : Str) (h : q ≠ []) : occursIn q q := by
  have e := occursIn_self_append q [] (by simpa using h)
  rwa [List.append_nil] at e

theorem occursIn_append_self (q s : Str) (h : s ++ q ≠ []) :
    occursIn q (s ++ q) := by
  cases q with
  | nil =>
    rw [List.append_nil] at h ⊢
    exact occursIn_nil_of_ne s h
  | cons a t => exact occursIn_append_left _ s _ (occursIn_self _ (by simp))

theorem append_left_ne_nil (x t : Str) (h : x ≠ []) : x ++ t ≠ [] := by
  intro e
  rw [List.append_eq_nil] at e
  exact h e.1

theorem append_right_ne_nil (x t : Str) (h : t ≠ []) : x ++ t ≠ [] := by
  intro e
  rw [List.append_eq_nil] at e
  exact h e.2

/-- C1: for every current date `D` (as a day number), `get_week_range`'s
offset `(weekday - 4) % 7` lies in `[0, 6]`, the start date satisfies
`start ≤ D < start + 7`, and the end date is `start + 7`; the function is
a total Lean function, hence pure with no error cases. -/
theorem c1_week_range_bounds (z : Int) :
    0 ≤ daysSinceFriday z ∧ daysSinceFriday z ≤ 6 ∧
    weekStartDay z ≤ z ∧ z < weekStartDay z + 7 ∧
    weekEndDay z = weekStartDay z + 7 := by
  have h1 : 0 ≤ (weekdayOf z - 4).emod 7 := Int.emod_nonneg _ (by norm_num)
  have h2 : (weekdayOf z - 4).emod 7 < 7 := Int.emod_lt_of_pos _ (by norm_num)
  unfold daysSinceFriday weekStartDay weekEndDay
  unfold daysSinceFriday at h1 h2 ⊢
  exact ⟨h1, by omega, by omega, by omega, rfl⟩

/-- C4 counterexample: on day 19846 (Friday 2024-05-03) the start day of
month is the single digit 3, yet the start label is "May 03" with a
leading zero, not "May 3". -/
theorem c4_counterexample_leading_zero :
    dayOf (weekStartDay 19846) = 3 ∧
    (get_week_range 19846).1 = str ("May 03") ∧
    (get_week_range 19846).1 ≠ str ("May 3") := by decide

/-- C4 amended: for every date whose start (last Friday) has a
single-digit day of month, the start label is the month name followed by
the day zero-padded to two digits ("May 03", not "May 3"). -/
theorem c4_amended_zero_padded (z : Int) (h : dayOf (weekStartDay z) < 10) :
    (get_week_range z).1 =
      monthName (monthOf (weekStartDay z)) ++
        ' ' :: '0' :: natRepr (dayOf (weekStartDay z)) := by
  unfold get_week_range strftimeBd pad2
  rw [if_pos h]

theorem c4_amended_zero_padded_witness :
    dayOf (weekStartDay 19846) < 10 ∧
    (get_week_range 19846).1 =
      monthName (monthOf (weekStartDay 19846)) ++
        ' ' :: '0' :: natRepr (dayOf (weekStartDay 19846)) :=
  ⟨by decide, c4_amended_zero_padded 19846 (by decide)⟩

/-- C3: a 24h change of -3.2 selects the red/down indicator, +5.0 the
green/up indicator, and 0.0 the red/down branch (only `change > 0` is
positive), in both the Twitter thread (tweet 2 contains the selected
emoji) and the Instagram caption (which contains the selected word). -/
theorem c3_directional_indicators :
    changeEmoji (-3.2) = redCircle ∧ changeEmoji 5.0 = greenCircle ∧
    changeEmoji 0 = redCircle ∧
    upDownWord (-3.2) = str ("down") ∧ upDownWord 5.0 = str ("up") ∧
    upDownWord 0 = str ("down") ∧
    (∀ p : Prices, occursIn (changeEmoji p.btc.change24h) (tweet2 p)) ∧
    (∀ (env : EnvConfig) (p : Prices) (wr : Str × Str),
      occursIn (upDownWord p.btc.change24h)
        (generate_instagram_caption env p wr)) := by
  refine ⟨by norm_num [changeEmoji], by norm_num [changeEmoji],
          by norm_num [changeEmoji], by norm_num [upDownWord],
          by norm_num [upDownWord], by norm_num [upDownWord], ?_, ?_⟩
  · intro p
    unfold tweet2
    apply occursIn_append_right
    apply occursIn_append_right
    apply occursIn_append_right
    apply occursIn_append_right
    apply occursIn_append_right
    apply occursIn_append_right
    apply occursIn_append_right
    apply occursIn_append_right
    apply occursIn_append_right
    apply occursIn_append_right
    apply occursIn_append_right
    apply occursIn_append_right
    apply occursIn_append_right
    apply occursIn_append_right
    apply occursIn_append_right
    apply occursIn_append_right
    apply occursIn_append_right
    apply occursIn_append_right
    apply occursIn_append_right
    refine occursIn_append_self _ _ ?_
    refine append_left_ne_nil _ _ ?_
    refine append_left_ne_nil _ _ ?_
    refine append_left_ne_nil _ _ ?_
    refine append_left_ne_nil _ _ ?_
    refine append_left_ne_nil _ _ ?_
    decide
  · intro env p wr
    unfold generate_instagram_caption
    apply occursIn_append_right
    apply occursIn_append_right
    apply occursIn_append_right
    apply occursIn_append_right
    apply occursIn_append_right
    apply occursIn_append_right
    apply occursIn_append_right
    apply occursIn_append_right
    apply occursIn_append_right
    apply occursIn_append_right
    apply occursIn_append_right
    apply occursIn_append_right
    apply occursIn_append_right
    apply occursIn_append_right
    apply occursIn_append_right
    apply occursIn_append_right
    apply occursIn_append_right
    apply occursIn_append_right
    apply occursIn_append_right
    refine occursIn_append_self _ _ ?_
    refine append_left_ne_nil _ _ ?_
    refine append_left_ne_nil _ _ ?_
    refine append_left_ne_nil _ _ ?_
    refine append_left_ne_nil _ _ ?_
    refine append_left_ne_nil _ _ ?_
    decide

/-- C5 counterexample: with identical prices and week range but different
`GITHUB_USERNAME` environment values, `generate_twitter_thread` returns
different outputs, so it is not a pure function of (prices, week_range)
alone. -/
theorem c5_counterexample_env_dependence :
    generate_twitter_thread ⟨none, some (str ("alice"))⟩ samplePrices sampleWeek ≠
      generate_twitter_thread ⟨none, some (str ("bob"))⟩ samplePrices sampleWeek := by
  unfold generate_twitter_thread
  intro h
  have e3 : tweet3 ⟨none, some (str ("alice"))⟩ = tweet3 ⟨none, some (str ("bob"))⟩ := by
    injection h with e1 h2
    injection h2 with e2 h3
    injection h3 with e3 _
  exact absurd e3 (by decide)

/-- C5 amended: `generate_instagram_caption` is a pure function of
(prices, week_range) — it ignores the environment entirely — while
`generate_twitter_thread` additionally depends on (and only on) the
`GITHUB_USERNAME` environment value. -/
theorem c5_amended_purity :
    (∀ (e1 e2 : EnvConfig) (p : Prices) (wr : Str × Str),
        generate_instagram_caption e1 p wr = generate_instagram_caption e2 p wr) ∧
    (∀ (e1 e2 : EnvConfig) (p : Prices) (wr : Str × Str),
        e1.github_username = e2.github_username →
        generate_twitter_thread e1 p wr = generate_twitter_thread e2 p wr) := by
  constructor
  · intro e1 e2 p wr; rfl
  · intro e1 e2 p wr h
    unfold generate_twitter_thread tweet3
    rw [h]

theorem c5_amended_purity_witness :
    (⟨some (str ("tok")), some (str ("u"))⟩ : EnvConfig).github_username =
      (⟨none, some (str ("u"))⟩ : EnvConfig).github_username ∧
    generate_twitter_thread ⟨some (str ("tok")), some (str ("u"))⟩ samplePrices sampleWeek =
      generate_twitter_thread ⟨none, some (str ("u"))⟩ samplePrices sampleWeek :=
  ⟨rfl, c5_amended_purity.2 _ _ _ _ rfl⟩

/-- C8: the `pls` and `hex` records returned by `fetch_crypto_prices` are
fixed hardcoded constants independent of every field of the upstream
response, and the result dict always has exactly the six keys
btc, eth, usdt, dai, pls, hex. -/
theorem c8_hardcoded_pls_hex (d1 d2 : CoinResp) :
    (fetch_crypto_prices d1).pls = plsRecord ∧
    (fetch_crypto_prices d1).hex = hexRecord ∧
    (fetch_crypto_prices d1).pls = (fetch_crypto_prices d2).pls ∧
    (fetch_crypto_prices d1).hex = (fetch_crypto_prices d2).hex ∧
    (fetch_crypto_prices d1).toAList.map Prod.fst =
      [str ("btc"), str ("eth"), str ("usdt"), str ("dai"),
       str ("pls"), str ("hex")] :=
  ⟨rfl, rfl, rfl, rfl, rfl⟩

/-- C9 counterexample: the sentiment fetcher accepts a response whose
parsed value is 150 and returns it unchanged, outside the range 0–100;
the code performs no range validation. -/
theorem c9_counterexample_out_of_range :
    (fetch_fear_greed_index ⟨150, str ("Extreme Greed")⟩).value = 150 ∧
    ¬ (fetch_fear_greed_index ⟨150, str ("Extreme Greed")⟩).value ≤ 100 :=
  ⟨rfl, by decide⟩

/-- C9 amended: the fetcher passes the parsed integer through unchanged
(with its classification string), so the returned value lies in 0–100
exactly when the upstream value does. -/
theorem c9_amended_passthrough (data : FgResp)
    (h0 : 0 ≤ data.value) (h100 : data.value ≤ 100) :
    (fetch_fear_greed_index data).value = data.value ∧
    (fetch_fear_greed_index data).classification = data.value_classification ∧
    0 ≤ (fetch_fear_greed_index data).value ∧
    (fetch_fear_greed_index data).value ≤ 100 :=
  ⟨rfl, rfl, h0, h100⟩

theorem c9_amended_passthrough_witness :
    0 ≤ (⟨50, str ("Neutral")⟩ : FgResp).value ∧
    (⟨50, str ("Neutral")⟩ : FgResp).value ≤ 100 ∧
    (fetch_fear_greed_index ⟨50, str ("Neutral")⟩).value = 50 :=
  ⟨by decide, by decide,
    (c9_amended_passthrough ⟨50, str ("Neutral")⟩ (by decide) (by decide)).1⟩

/-- C10: for every prices value and week range, the Twitter thread is
exactly three blocks; the first is the header block containing both
week-range labels, the last is the call-to-action block. -/
theorem c10_thread_structure (env : EnvConfig) (p : Prices) (wr : Str × Str) :
    (generate_twitter_thread env p wr).length = 3 ∧
    (generate_twitter_thread env p wr).headD [] = tweet1 wr ∧
    (generate_twitter_thread env p wr).getLastD [] = tweet3 env ∧
    occursIn wr.1 (tweet1 wr) ∧ occursIn wr.2 (tweet1 wr) ∧
    occursIn (str ("Read the full newsletter")) (tweet3 env) ∧
    occursIn (str ("RT to share")) (tweet3 env) := by
  refine ⟨rfl, rfl, rfl, ?_, ?_, ?_, ?_⟩
  · unfold tweet1
    apply occursIn_append_right
    apply occursIn_append_right
    apply occursIn_append_right
    refine occursIn_append_self _ _ ?_
    refine append_left_ne_nil _ _ ?_
    decide
  · unfold tweet1
    apply occursIn_append_right
    refine occursIn_append_self _ _ ?_
    refine append_left_ne_nil _ _ ?_
    refine append_left_ne_nil _ _ ?_
    refine append_left_ne_nil _ _ ?_
    decide
  · unfold tweet3
    apply occursIn_append_right
    apply occursIn_append_right
    decide
  · unfold tweet3
    apply occursIn_append_left
    decide

/-- C6: whenever `GITHUB_TOKEN` or `GITHUB_USERNAME` is unset (and the
run itself succeeds: the two data fetches and the file writes do not
raise), `deploy_to_github` is never invoked, the publish step performs
zero network calls, the skip is not an error, and the run still writes
both `twitter_thread.txt` and `instagram_caption.txt`. -/
theorem c6_publish_skip (w : World) (presp : CoinResp) (fresp : FgResp)
    (hp : w.pricesResp = .ok presp) (hf : w.fgResp = .ok fresp)
    (hcred : w.env.github_token = none ∨ w.env.github_username = none)
    (hx : w.writeIndexRes = .ok ()) (ht : w.writeTwitterRes = .ok ())
    (hi : w.writeInstaRes = .ok ()) :
    (mainRun w).deployInvoked = false ∧ (mainRun w).deployNetCalls = 0 ∧
    (mainRun w).errorCaught = false ∧
    (mainRun w).twitterFile =
      some (generate_twitter_thread w.env (fetch_crypto_prices presp)
        (get_week_range w.today)) ∧
    (mainRun w).instaFile =
      some (generate_instagram_caption w.env (fetch_crypto_prices presp)
        (get_week_range w.today)) := by
  unfold mainRun
  rw [hp, hf]
  cases htm : w.template with
  | none =>
    unfold socialPhase
    rw [ht, hi]
    exact ⟨rfl, rfl, rfl, rfl, rfl⟩
  | some tpl =>
    rw [hx]
    rcases hcred with hc | hc
    · rw [hc]
      unfold socialPhase
      rw [ht, hi]
      exact ⟨rfl, rfl, rfl, rfl, rfl⟩
    · rw [hc]
      cases htok : w.env.github_token with
      | none =>
        unfold socialPhase
        rw [ht, hi]
        exact ⟨rfl, rfl, rfl, rfl, rfl⟩
      | some t =>
        unfold socialPhase
        rw [ht, hi]
        exact ⟨rfl, rfl, rfl, rfl, rfl⟩

theorem c6_publish_skip_witness :
    sampleWorld.pricesResp = .ok sampleCoinResp ∧
    sampleWorld.fgResp = .ok ⟨50, str ("Greed")⟩ ∧
    (sampleWorld.env.github_token = none ∨
      sampleWorld.env.github_username = none) ∧
    sampleWorld.writeIndexRes = .ok () ∧
    sampleWorld.writeTwitterRes = .ok () ∧
    sampleWorld.writeInstaRes = .ok () ∧
    ((mainRun sampleWorld).deployInvoked = false ∧
     (mainRun sampleWorld).deployNetCalls = 0 ∧
     (mainRun sampleWorld).errorCaught = false ∧
     (mainRun sampleWorld).twitterFile =
       some (generate_twitter_thread sampleWorld.env
         (fetch_crypto_prices sampleCoinResp)
         (get_week_range sampleWorld.today)) ∧
     (mainRun sampleWorld).instaFile =
       some (generate_instagram_caption sampleWorld.env
         (fetch_crypto_prices sampleCoinResp)
         (get_week_range sampleWorld.today))) :=
  ⟨rfl, rfl, Or.inl rfl, rfl, rfl, rfl,
    c6_publish_skip sampleWorld sampleCoinResp ⟨50, str ("Greed")⟩
      rfl rfl (Or.inl rfl) rfl rfl rfl⟩

/-- C7: for every world of outcomes — including every combination of
raising fetches, missing template, failing deployment calls and failing
file writes — `main` returns normally with exit code 0; furthermore
either the catch-all handler ran (an error was caught and logged) or the
run completed and wrote both social-text files. -/
theorem c7_exit_code_zero (w : World) :
    (mainRun w).exitCode = 0 ∧
    ((mainRun w).errorCaught = true ∨
      ((mainRun w).twitterFile ≠ none ∧ (mainRun w).instaFile ≠ none)) := by
  unfold mainRun socialPhase deploy_to_github
  rcases w.pricesResp with e | presp
  · exact ⟨rfl, Or.inl rfl⟩
  rcases w.fgResp with e | fresp
  · exact ⟨rfl, Or.inl rfl⟩
  rcases w.template with _ | tpl
  · rcases w.writeTwitterRes with e | u
    · exact ⟨rfl, Or.inl rfl⟩
    rcases w.writeInstaRes with e | u2
    · exact ⟨rfl, Or.inl rfl⟩
    exact ⟨rfl, Or.inr ⟨by simp, by simp⟩⟩
  rcases w.writeIndexRes with e | u0
  · exact ⟨rfl, Or.inl rfl⟩
  rcases w.env.github_token with _ | tok
  · rcases w.writeTwitterRes with e | u
    · exact ⟨rfl, Or.inl rfl⟩
    rcases w.writeInstaRes with e | u2
    · exact ⟨rfl, Or.inl rfl⟩
    exact ⟨rfl, Or.inr ⟨by simp, by simp⟩⟩
  rcases w.env.github_username with _ | usr
  · rcases w.writeTwitterRes with e | u
    · exact ⟨rfl, Or.inl rfl⟩
    rcases w.writeInstaRes with e | u2
    · exact ⟨rfl, Or.inl rfl⟩
    exact ⟨rfl, Or.inr ⟨by simp, by simp⟩⟩
  rcases w.deployGetSha with e | sha
  · exact ⟨rfl, Or.inl rfl⟩
  rcases w.deployPutRes with e | putOk
  · exact ⟨rfl, Or.inl rfl⟩
  rcases w.writeTwitterRes with e | u
  · exact ⟨rfl, Or.inl rfl⟩
  rcases w.writeInstaRes with e | u2
  · exact ⟨rfl, Or.inl rfl⟩
  exact ⟨rfl, Or.inr ⟨by simp, by simp⟩⟩

/- ---------- prefix and occurrence kit for the rendering proofs ---------- -/

theorem startsL_iff (p s : Str) : startsL p s = true ↔ ∃ t, s = p ++ t := by
  induction p generalizing s with
  | nil => simp [startsL]
  | cons a p ih =>
    cases s with
    | nil =>
      simp only [startsL, List.cons_append]
      constructor
      · intro h; cases h
      · rintro ⟨t, ht⟩; cases ht
    | cons b s =>
      simp only [startsL, Bool.and_eq_true, beq_iff_eq, ih, List.cons_append]
      constructor
      · rintro ⟨rfl, t, rfl⟩; exact ⟨t, rfl⟩
      · rintro ⟨t, ht⟩
        injection ht with h1 h2
        first
        | exact ⟨h1, t, h2⟩
        | exact ⟨h1.symm, t, h2⟩

theorem startsL_length_le (p s : Str) (h : startsL p s = true) :
    p.length ≤ s.length := by
  obtain ⟨t, rfl⟩ := (startsL_iff p s).mp h
  rw [List.length_append]
  omega

theorem startsL_false_of_lt (p s : Str) (h : s.length < p.length) :
    startsL p s = false := by
  cases hv : startsL p s
  · rfl
  · exact absurd (startsL_length_le p s hv) (by omega)

theorem append_of_startsL (p s : Str) (h : startsL p s = true) :
    s = p ++ s.drop p.length := by
  obtain ⟨t, rfl⟩ := (startsL_iff p s).mp h
  rw [List.drop_append_of_le_length (Nat.le_refl _), List.drop_length,
    List.nil_append]

theorem take_of_startsL (p s : Str) (h : startsL p s = true) :
    s.take p.length = p := by
  obtain ⟨t, rfl⟩ := (startsL_iff p s).mp h
  rw [List.take_append_of_le_length (Nat.le_refl _), List.take_length]

theorem startsL_append_elim_le (a u v : Str) (h : startsL a (u ++ v) = true)
    (hl : a.length ≤ u.length) : startsL a u = true := by
  induction a generalizing u with
  | nil => rfl
  | cons x a ih =>
    cases u with
    | nil => simp at hl
    | cons y u =>
      rw [List.cons_append] at h
      simp only [startsL, Bool.and_eq_true, beq_iff_eq] at h ⊢
      exact ⟨h.1, ih u h.2 (by simpa using hl)⟩

theorem startsL_append_elim_ge (a u v : Str) (h : startsL a (u ++ v) = true)
    (hl : u.length ≤ a.length) :
    startsL u a = true ∧ startsL (a.drop u.length) v = true := by
  induction u generalizing a with
  | nil => exact ⟨rfl, h⟩
  | cons y u ih =>
    cases a with
    | nil => simp at hl
    | cons x a =>
      rw [List.cons_append] at h
      simp only [startsL, Bool.and_eq_true, beq_iff_eq] at h ⊢
      obtain ⟨h1, h2⟩ := h
      obtain ⟨h3, h4⟩ := ih a h2 (by simpa using hl)
      first
      | exact ⟨⟨h1, h3⟩, h4⟩
      | exact ⟨⟨h1.symm, h3⟩, h4⟩

theorem startsL_two (a b t : Str) (h1 : startsL a t = true)
    (h2 : startsL b t = true) (hl : a.length ≤ b.length) :
    startsL a b = true := by
  induction a generalizing b t with
  | nil => rfl
  | cons x a ih =>
    cases b with
    | nil => simp at hl
    | cons y b =>
      cases t with
      | nil => exact absurd (startsL_length_le _ _ h1) (by simp)
      | cons z t =>
        simp only [startsL, Bool.and_eq_true, beq_iff_eq] at h1 h2 ⊢
        exact ⟨h1.1.trans h2.1.symm, ih b t h1.2 h2.2 (by simpa using hl)⟩

theorem startsL_drop_both (a b : Str) (j : Nat) (h : startsL a b = true) :
    startsL (a.drop j) (b.drop j) = true := by
  induction j generalizing a b with
  | zero => exact h
  | succ j ih =>
    cases a with
    | nil => rw [List.drop_nil]; rfl
    | cons x a =>
      cases b with
      | nil => exact absurd (startsL_length_le _ _ h) (by simp)
      | cons y b =>
        simp only [startsL, Bool.and_eq_true] at h
        exact ih a b h.2

theorem countOcc_nil_eq (s : Str) : countOcc [] s = s.length := by
  induction s with
  | nil => rfl
  | cons c s ih => rw [countOcc_cons, ih]; simp [startsL]; omega

theorem countOcc_parts (q x y : Str) (hq : q ≠ []) :
    countOcc q (x ++ (q ++ y)) ≠ 0 :=
  occursIn_append_left q x (q ++ y)
    (occursIn_self_append q y (append_left_ne_nil q y hq))

theorem parts_of_countOcc (q s : Str) (h : countOcc q s ≠ 0) :
    ∃ x y, s = x ++ (q ++ y) := by
  induction s with
  | nil => exact absurd rfl h
  | cons c s ih =>
    rw [countOcc_cons] at h
    by_cases hs : startsL q (c :: s) = true
    · exact ⟨[], (c :: s).drop q.length, by
        rw [List.nil_append]; exact append_of_startsL q (c :: s) hs⟩
    · rw [if_neg hs] at h
      simp only [Nat.zero_add] at h
      obtain ⟨x, y, hxy⟩ := ih h
      exact ⟨c :: x, y, by rw [hxy, List.cons_append]⟩

theorem occ_sub (u q s : Str) (hu : countOcc u q ≠ 0)
    (hq : countOcc q s ≠ 0) : countOcc u s ≠ 0 := by
  obtain ⟨x, y, hxy⟩ := parts_of_countOcc u q hu
  obtain ⟨a, b, hab⟩ := parts_of_countOcc q s hq
  cases hu2 : u with
  | nil =>
    have hqn : q ≠ [] := by
      intro hqe
      rw [hu2, hqe] at hu
      exact hu rfl
    have hsn : s ≠ [] := by
      intro he
      rw [he] at hab
      have hab2 := hab.symm
      rw [List.append_eq_nil] at hab2
      rw [List.append_eq_nil] at hab2
      exact hqn hab2.2.1
    first
    | rw [countOcc_nil_eq]
    | rw [hu2, countOcc_nil_eq]
    intro hl
    exact hsn (List.length_eq_zero.mp hl)
  | cons c u' =>
    rw [← hu2]
    have he : s = (a ++ x) ++ (u ++ (y ++ b)) := by
      rw [hab, hxy]
      simp [List.append_assoc]
    rw [he]
    exact countOcc_parts u (a ++ x) (y ++ b) (by rw [hu2]; simp)

theorem occ_length_le (r q : Str) (h : countOcc r q ≠ 0) :
    r.length ≤ q.length := by
  obtain ⟨x, y, hxy⟩ := parts_of_countOcc r q h
  rw [hxy]
  simp [List.length_append]
  omega

theorem mem_of_countOcc (q s : Str) (c : Char) (h : countOcc q s ≠ 0)
    (hc : c ∈ q) : c ∈ s := by
  obtain ⟨x, y, hxy⟩ := parts_of_countOcc q s h
  rw [hxy]
  simp [List.mem_append]
  tauto

theorem countOcc_zero_of_missing (q s : Str) (c : Char) (hc : c ∈ q)
    (hs : c ∉ s) : countOcc q s = 0 := by
  by_contra h
  exact hs (mem_of_countOcc q s c h hc)

theorem countOcc_drop_zero (q s : Str) (n : Nat) (h : countOcc q s = 0) :
    countOcc q (s.drop n) = 0 := by
  by_contra hο
  obtain ⟨x, y, hxy⟩ := parts_of_countOcc q (s.drop n) hο
  cases hq : q with
  | nil =>
    rw [hq, countOcc_nil_eq] at h
    rw [hq, countOcc_nil_eq] at hο
    have := List.length_drop n s
    omega
  | cons a q' =>
    have hs : s = s.take n ++ (x ++ (q ++ y)) := by
      rw [← hxy, List.take_append_drop]
    rw [hs, ← List.append_assoc] at h
    exact countOcc_parts q (s.take n ++ x) y (by rw [hq]; simp) h

theorem countOcc_startsL_pos (q : Str) (c : Char) (s : Str)
    (h : startsL q (c :: s) = true) : countOcc q (c :: s) ≠ 0 := by
  rw [countOcc_cons, if_pos h]
  omega

theorem countOcc_drop_startsL (r q : Str) (k : Nat) (hk : k < q.length)
    (h : startsL r (q.drop k) = true) : countOcc r q ≠ 0 := by
  cases hr : r with
  | nil =>
    rw [countOcc_nil_eq]
    omega
  | cons c r2 =>
    rw [← hr]
    obtain ⟨t, ht⟩ := (startsL_iff r (q.drop k)).mp h
    have hs : q = q.take k ++ (r ++ t) := by rw [← ht, List.take_append_drop]
    rw [hs]
    exact countOcc_parts r (q.take k) t (by rw [hr]; simp)

theorem replaceAllAux_nil (p r : Str) (f : Nat) :
    replaceAllAux p r f [] = [] := by
  cases f <;> rfl

theorem replaceAll_nil (p r : Str) : replaceAll p r [] = [] := rfl

/-- Zero occurrences in both parts and no occurrence spanning the seam
give zero occurrences in the concatenation. -/
theorem countOcc_append_zero (q x y : Str)
    (hx : countOcc q x = 0) (hy : countOcc q y = 0)
    (hspan : ∀ k u, 0 < k → k < q.length → x = u ++ q.take k →
      startsL (q.drop k) y = false) :
    countOcc q (x ++ y) = 0 := by
  by_cases hqn : q = []
  · subst hqn
    rw [countOcc_nil_eq] at hx hy ⊢
    rw [List.length_append]
    omega
  · revert hx hspan
    induction x with
    | nil =>
      intro hx hspan
      simpa using hy
    | cons c x2 ih =>
      intro hx hspan
      rw [countOcc_cons] at hx
      obtain ⟨h1, hx2⟩ := Nat.add_eq_zero_iff.mp hx
      have hsf : startsL q (c :: x2) = false := by
        cases hv : startsL q (c :: x2)
        · rfl
        · rw [if_pos hv] at h1; cases h1
      rw [List.cons_append, countOcc_cons]
      have hb : startsL q (c :: (x2 ++ y)) = false := by
        cases hb2 : startsL q (c :: (x2 ++ y))
        · rfl
        · exfalso
          rw [← List.cons_append] at hb2
          by_cases hl : q.length ≤ (c :: x2).length
          · have := startsL_append_elim_le q (c :: x2) y hb2 hl
            rw [hsf] at this; cases this
          · push_neg at hl
            obtain ⟨h3, h4⟩ :=
              startsL_append_elim_ge q (c :: x2) y hb2 (by omega)
            have htk : q.take (c :: x2).length = c :: x2 :=
              take_of_startsL (c :: x2) q h3
            have := hspan (c :: x2).length [] (by simp) hl (by rw [htk]; rfl)
            rw [this] at h4; cases h4
      rw [hb]
      simp only [Bool.false_eq_true, if_false, Nat.zero_add]
      refine ih hx2 ?_
      intro k u hk1 hk2 he
      exact hspan k (c :: u) hk1 hk2 (by rw [he, List.cons_append])

/-- If no occurrence of `q` starts within the first `x.length` positions,
the count over `x ++ y` equals the count over `y`. -/
theorem countOcc_append_skip (q x y : Str)
    (h : ∀ k, k < x.length → startsL q (x.drop k ++ y) = false) :
    countOcc q (x ++ y) = countOcc q y := by
  revert h
  induction x with
  | nil => intro h; rw [List.nil_append]
  | cons c x2 ih =>
    intro h
    rw [List.cons_append, countOcc_cons]
    have h0 := h 0 (by simp)
    rw [List.drop_zero, List.cons_append] at h0
    rw [h0]
    simp only [Bool.false_eq_true, if_false, Nat.zero_add]
    refine ih ?_
    intro k hk
    have := h (k + 1) (by simpa using hk)
    rw [List.drop_succ_cons] at this
    exact this

/-- A prefix of `s` that no pattern occurrence intersects survives
`replaceAll` as a prefix of the output. -/
theorem startsL_replaceAll_stable (p r : Str) :
    ∀ n s γ, s.length ≤ n → startsL γ s = true →
      (∀ j, j < γ.length → startsL p (s.drop j) = false) →
      startsL γ (replaceAllAux p r n s) = true := by
  intro n
  induction n with
  | zero =>
    intro s γ hn hγ hj
    have hs : s = [] := List.length_eq_zero.mp (by omega)
    subst hs
    cases γ with
    | nil => rw [replaceAllAux_nil]; rfl
    | cons g γ2 => simp [startsL] at hγ
  | succ n ih =>
    intro s γ hn hγ hj
    cases s with
    | nil =>
      cases γ with
      | nil => rw [replaceAllAux_nil]; rfl
      | cons g γ2 => simp [startsL] at hγ
    | cons c s2 =>
      rw [replaceAllAux]
      split
      · rename_i h
        cases γ with
        | nil => rfl
        | cons g γ2 =>
          have h0 := hj 0 (by simp)
          rw [List.drop_zero] at h0
          rw [h.1] at h0
          cases h0
      · rename_i h
        cases γ with
        | nil => rfl
        | cons g γ2 =>
          simp only [startsL, Bool.and_eq_true, beq_iff_eq] at hγ ⊢
          refine ⟨hγ.1, ?_⟩
          refine ih s2 γ2 (by simpa using hn) hγ.2 ?_
          intro j hjl
          have := hj (j + 1) (by simpa using hjl)
          rw [List.drop_succ_cons] at this
          exact this

/-- A proper suffix of `q` that is a prefix of the output of `replaceAll`
was already a prefix of the input (assuming no proper suffix of `q` is a
prefix of `r` and `r` does not occur inside `q`). -/
theorem g6_drop_stable (q r p : Str)
    (hB : ∀ k, 0 < k → k < q.length → startsL (q.drop k) r = false)
    (hC : countOcc r q = 0) :
    ∀ n s k, s.length ≤ n → 0 < k → k < q.length →
      startsL (q.drop k) (replaceAllAux p r n s) = true →
      startsL (q.drop k) s = true := by
  intro n
  induction n with
  | zero =>
    intro s k hn h1 h2 h3
    have hs : s = [] := List.length_eq_zero.mp (by omega)
    subst hs
    rw [replaceAllAux_nil] at h3
    exact h3
  | succ n ih =>
    intro s k hn h1 h2 h3
    cases s with
    | nil => rw [replaceAllAux_nil] at h3; exact h3
    | cons c s2 =>
      rw [replaceAllAux] at h3
      split at h3
      · rename_i h
        exfalso
        by_cases hlen : (q.drop k).length ≤ r.length
        · have h4 := startsL_append_elim_le _ _ _ h3 hlen
          rw [hB k h1 h2] at h4
          cases h4
        · push_neg at hlen
          have h5 := (startsL_append_elim_ge (q.drop k) r _ h3 (by omega)).1
          exact (countOcc_drop_startsL r q k h2 h5) hC
      · rename_i h
        cases hqd : q.drop k with
        | nil =>
          have hl := List.length_drop k q
          rw [hqd] at hl
          simp at hl
          omega
        | cons d rest =>
          rw [hqd] at h3
          simp only [startsL, Bool.and_eq_true, beq_iff_eq] at h3
          have hrest : q.drop (k + 1) = rest := by
            have hdd : q.drop (k + 1) = (q.drop k).drop 1 := by
              rw [List.drop_drop, Nat.add_comm]
            rw [hdd, hqd, List.drop_succ_cons, List.drop_zero]
          simp only [startsL, Bool.and_eq_true, beq_iff_eq]
          refine ⟨h3.1, ?_⟩
          by_cases hk1 : k + 1 < q.length
          · have h6 : startsL (q.drop (k + 1)) (replaceAllAux p r n s2) = true := by
              rw [hrest]; exact h3.2
            have h7 := ih s2 (k + 1) (by simpa using hn) (by omega) hk1 h6
            rw [hrest] at h7
            exact h7
          · have hre : rest = [] := by
              have hl2 := List.length_drop (k + 1) q
              rw [hrest] at hl2
              have : q.length - (k + 1) = 0 := by omega
              rw [this] at hl2
              exact List.length_eq_zero.mp hl2
            rw [hre]
            rfl

/-- Replacing `q` itself removes every occurrence of `q`, provided the
replacement `r` contains no `q`, no nonempty proper prefix of `q` is a
suffix of `r`, no nonempty proper suffix of `q` is a prefix of `r`, and
`r` does not occur inside `q`. -/
theorem countOcc_replaceAll_self (q r : Str) (hq : q ≠ [])
    (hr0 : countOcc q r = 0)
    (hA : ∀ k u, 0 < k → k < q.length → r ≠ u ++ q.take k)
    (hB : ∀ k, 0 < k → k < q.length → startsL (q.drop k) r = false)
    (hC : countOcc r q = 0) :
    ∀ n s, s.length ≤ n → countOcc q (replaceAllAux q r n s) = 0 := by
  intro n
  induction n with
  | zero =>
    intro s hn
    have hs : s = [] := List.length_eq_zero.mp (by omega)
    subst hs
    rw [replaceAllAux_nil]
    rfl
  | succ n ih =>
    intro s hn
    cases s with
    | nil => rw [replaceAllAux_nil]; rfl
    | cons c s2 =>
      rw [replaceAllAux]
      split
      · rename_i h
        refine countOcc_append_zero q r _ hr0 ?_ ?_
        · refine ih _ ?_
          have hp : 0 < q.length := List.length_pos.mpr h.2
          simp only [List.length_drop, List.length_cons]
          simp only [List.length_cons] at hn
          omega
        · intro k u hk1 hk2 he
          exact absurd he (hA k u hk1 hk2)
      · rename_i h
        have hsl : startsL q (c :: s2) = false := by
          cases hv : startsL q (c :: s2)
          · rfl
          · exact absurd ⟨hv, hq⟩ h
        rw [countOcc_cons]
        have hrec := ih s2 (by simpa using hn)
        have hsf : startsL q (c :: replaceAllAux q r n s2) = false := by
          cases hv : startsL q (c :: replaceAllAux q r n s2)
          · rfl
          · exfalso
            cases hqc : q with
            | nil => exact hq hqc
            | cons a q1 =>
              rw [hqc] at hv hsl
              simp only [startsL, Bool.and_eq_true, beq_iff_eq] at hv
              cases hq1 : q1 with
              | nil =>
                rw [hq1] at hsl
                simp [startsL, hv.1] at hsl
              | cons b q2 =>
                have h6 : startsL ((a :: q1).drop 1) (replaceAllAux (a :: q1) r n s2) = true := by
                  simp only [List.drop_succ_cons, List.drop_zero]
                  exact hv.2
                have h7 := g6_drop_stable (a :: q1) r (a :: q1)
                  (by rw [← hqc]; exact hB) (by rw [← hqc]; exact hC)
                  n s2 1 (by simp only [List.length_cons] at hn; omega) (by omega)
                  (by rw [hq1]; simp) h6
                simp only [List.drop_succ_cons, List.drop_zero] at h7
                simp [startsL, hv.1, h7] at hsl
        rw [hsf]
        simp only [Bool.false_eq_true, if_false, Nat.zero_add]
        exact hrec

/-- Replacing a (different) pattern `p` cannot create an occurrence of
`q` when `q` did not occur, under the same conditions on `q` and `r`. -/
theorem countOcc_replaceAll_zero (p q r : Str) (hq : q ≠ [])
    (hr0 : countOcc q r = 0)
    (hA : ∀ k u, 0 < k → k < q.length → r ≠ u ++ q.take k)
    (hB : ∀ k, 0 < k → k < q.length → startsL (q.drop k) r = false)
    (hC : countOcc r q = 0) :
    ∀ n s, s.length ≤ n → countOcc q s = 0 →
      countOcc q (replaceAllAux p r n s) = 0 := by
  intro n
  induction n with
  | zero =>
    intro s hn hs0
    have hs : s = [] := List.length_eq_zero.mp (by omega)
    subst hs
    rw [replaceAllAux_nil]
    rfl
  | succ n ih =>
    intro s hn hs0
    cases s with
    | nil => rw [replaceAllAux_nil]; rfl
    | cons c s2 =>
      rw [replaceAllAux]
      split
      · rename_i h
        refine countOcc_append_zero q r _ hr0 ?_ ?_
        · refine ih _ ?_ (countOcc_drop_zero q (c :: s2) p.length hs0)
          have hp : 0 < p.length := List.length_pos.mpr h.2
          simp only [List.length_drop, List.length_cons]
          simp only [List.length_cons] at hn
          omega
        · intro k u hk1 hk2 he
          exact absurd he (hA k u hk1 hk2)
      · rename_i h
        have hs2 : countOcc q s2 = 0 := by
          rw [countOcc_cons] at hs0
          omega
        have hsl : startsL q (c :: s2) = false := by
          cases hv : startsL q (c :: s2)
          · rfl
          · exfalso
            rw [countOcc_cons, if_pos hv] at hs0
            omega
        rw [countOcc_cons]
        have hrec := ih s2 (by simpa using hn) hs2
        have hsf : startsL q (c :: replaceAllAux p r n s2) = false := by
          cases hv : startsL q (c :: replaceAllAux p r n s2)
          · rfl
          · exfalso
            cases hqc : q with
            | nil => exact hq hqc
            | cons a q1 =>
              rw [hqc] at hv hsl
              simp only [startsL, Bool.and_eq_true, beq_iff_eq] at hv
              cases hq1 : q1 with
              | nil =>
                rw [hq1] at hsl
                simp [startsL, hv.1] at hsl
              | cons b q2 =>
                have h6 : startsL ((a :: q1).drop 1) (replaceAllAux p r n s2) = true := by
                  simp only [List.drop_succ_cons, List.drop_zero]
                  exact hv.2
                have h7 := g6_drop_stable (a :: q1) r p
                  (by rw [← hqc]; exact hB) (by rw [← hqc]; exact hC)
                  n s2 1 (by simp only [List.length_cons] at hn; omega) (by omega)
                  (by rw [hq1]; simp) h6
                simp only [List.drop_succ_cons, List.drop_zero] at h7
                simp [startsL, hv.1, h7] at hsl
        rw [hsf]
        simp only [Bool.false_eq_true, if_false, Nat.zero_add]
        exact hrec

/-- Replacing `p` by `r` preserves the number of occurrences of an
unrelated pattern `q`: the conditions say `q` does not occur in `r`, no
fragment of `q` can combine with `r`'s ends, `r` does not occur inside
`q`, and `p` and `q` cannot overlap in any alignment. -/
theorem countOcc_replaceAll_keep (p q r : Str) (hq : q ≠ [])
    (hr0 : countOcc q r = 0)
    (hA : ∀ k u, 0 < k → k < q.length → r ≠ u ++ q.take k)
    (hB : ∀ k, 0 < k → k < q.length → startsL (q.drop k) r = false)
    (hC : countOcc r q = 0)
    (hsep1 : ∀ k, k < p.length →
      startsL q (p.drop k) = false ∧ startsL (p.drop k) q = false)
    (hsep2 : ∀ k, k < q.length →
      startsL p (q.drop k) = false ∧ startsL (q.drop k) p = false) :
    ∀ n s, s.length ≤ n →
      countOcc q (replaceAllAux p r n s) = countOcc q s := by
  intro n
  induction n with
  | zero =>
    intro s hn
    have hs : s = [] := List.length_eq_zero.mp (by omega)
    subst hs
    rw [replaceAllAux_nil]
  | succ n ih =>
    intro s hn
    cases s with
    | nil => rw [replaceAllAux_nil]
    | cons c s2 =>
      rw [replaceAllAux]
      split
      · rename_i h
        have hp : 0 < p.length := List.length_pos.mpr h.2
        have he : c :: s2 = p ++ (c :: s2).drop p.length :=
          append_of_startsL p _ h.1
        conv_rhs => rw [he]
        rw [countOcc_append_skip q p ((c :: s2).drop p.length) ?side1]
        rw [countOcc_append_skip q r (replaceAllAux p r n ((c :: s2).drop p.length)) ?side2]
        case side1 =>
          intro k hk
          cases hv : startsL q (p.drop k ++ (c :: s2).drop p.length)
          · rfl
          · exfalso
            by_cases hl : q.length ≤ (p.drop k).length
            · have h4 := startsL_append_elim_le q (p.drop k) _ hv hl
              rw [(hsep1 k hk).1] at h4
              cases h4
            · push_neg at hl
              have h5 := (startsL_append_elim_ge q (p.drop k) _ hv (by omega)).1
              rw [(hsep1 k hk).2] at h5
              cases h5
        case side2 =>
          intro k hk
          cases hv : startsL q (r.drop k ++ replaceAllAux p r n ((c :: s2).drop p.length))
          · rfl
          · exfalso
            by_cases hl : q.length ≤ (r.drop k).length
            · have h4 := startsL_append_elim_le q (r.drop k) _ hv hl
              exact (countOcc_drop_startsL q r k hk h4) hr0
            · push_neg at hl
              have h5 := (startsL_append_elim_ge q (r.drop k) _ hv (by omega)).1
              have e1 : q.take (r.drop k).length = r.drop k :=
                take_of_startsL (r.drop k) q h5
              have e2 : r = r.take k ++ q.take (r.drop k).length := by
                rw [e1, List.take_append_drop]
              have hm1 : 0 < (r.drop k).length := by
                simp only [List.length_drop]
                omega
              exact absurd e2 (hA _ _ hm1 (by omega))
        refine ih _ ?_
        simp only [List.length_drop, List.length_cons]
        simp only [List.length_cons] at hn
        omega
      · rename_i h
        rw [countOcc_cons, countOcc_cons]
        have hrec := ih s2 (by simpa using hn)
        rw [hrec]
        have hiff : startsL q (c :: replaceAllAux p r n s2) = startsL q (c :: s2) := by
          cases hqc : q with
          | nil => exact absurd hqc hq
          | cons a q1 =>
            by_cases hac : (a == c) = true
            · simp only [startsL, hac, Bool.true_and]
              by_cases hq1n : q1 = []
              · rw [hq1n]; rfl
              · have hd1 : startsL q1 (replaceAllAux p r n s2) = true →
                    startsL q1 s2 = true := by
                  intro hx
                  have h6 : startsL ((a :: q1).drop 1) (replaceAllAux p r n s2) = true := by
                    simp only [List.drop_succ_cons, List.drop_zero]
                    exact hx
                  have h7 := g6_drop_stable (a :: q1) r p
                    (by rw [← hqc]; exact hB) (by rw [← hqc]; exact hC)
                    n s2 1 (by simp only [List.length_cons] at hn; omega) (by omega)
                    (by simp only [List.length_cons]
                        have := List.length_pos.mpr hq1n
                        omega) h6
                  simpa using h7
                have hd2 : startsL q1 s2 = true →
                    startsL q1 (replaceAllAux p r n s2) = true := by
                  intro hy
                  refine startsL_replaceAll_stable p r n s2 q1
                    (by simp only [List.length_cons] at hn; omega) hy ?_
                  intro j hj
                  cases hv : startsL p (s2.drop j)
                  · rfl
                  · exfalso
                    have hqq : startsL (q1.drop j) (s2.drop j) = true :=
                      startsL_drop_both q1 s2 j hy
                    have hq1d : q1.drop j = (a :: q1).drop (j + 1) := by
                      rw [List.drop_succ_cons]
                    have hsep := hsep2 (j + 1)
                      (by rw [hqc]; simp only [List.length_cons]; omega)
                    rw [hqc] at hsep
                    by_cases hl : p.length ≤ (q1.drop j).length
                    · have h8 := startsL_two p (q1.drop j) (s2.drop j) hv hqq hl
                      rw [hq1d] at h8
                      rw [hsep.1] at h8
                      cases h8
                    · push_neg at hl
                      have h8 := startsL_two (q1.drop j) p (s2.drop j) hqq hv
                        (by omega)
                      rw [hq1d] at h8
                      rw [hsep.2] at h8
                      cases h8
                cases hx : startsL q1 (replaceAllAux p r n s2) <;>
                  cases hy : startsL q1 s2
                · rfl
                · simp [hd2 hy] at hx
                · simp [hd1 hx] at hy
                · rfl
            · have hacf : (a == c) = false := by
                cases hv : (a == c)
                · rfl
                · exact absurd hv hac
              simp only [startsL, hacf, Bool.false_and]
        rw [hiff]

/- ---------- discharging the side conditions from character facts ---------- -/

theorem countOcc_zero_of_bb (q r : Str) (hbbq : countOcc dblBrace q ≠ 0)
    (hbbr : countOcc dblBrace r = 0) : countOcc q r = 0 := by
  by_contra h
  exact (occ_sub dblBrace q r hbbq h) hbbr

theorem not_concat_of_notin (r : Str) (c : Char) (h : c ∉ r) :
    ∀ u, r ≠ u ++ [c] := by
  intro u he
  exact h (by rw [he]; exact List.mem_append.mpr (Or.inr (by simp)))

theorem countOcc_zero_of_longer (r q : Str) (h : q.length < r.length) :
    countOcc r q = 0 := by
  by_contra h2
  exact absurd (occ_length_le r q h2) (by omega)

theorem noPre_of_chars (q r : Str)
    (htake : ∀ k, k < q.length → 0 < k →
      (q.take k = ['\x7b'] ∨ countOcc dblBrace (q.take k) ≠ 0 ∨
        '/' ∈ q.take k))
    (hbbr : countOcc dblBrace r = 0)
    (hslash : '/' ∉ r)
    (hlast : ∀ u, r ≠ u ++ ['\x7b']) :
    ∀ k u, 0 < k → k < q.length → r ≠ u ++ q.take k := by
  intro k u hk1 hk2 he
  rcases htake k hk2 hk1 with hc1 | hc2 | hc3
  · rw [hc1] at he
    exact hlast u he
  · refine absurd hbbr ?_
    rw [he]
    obtain ⟨x, y, hxy⟩ := parts_of_countOcc dblBrace (q.take k) hc2
    rw [hxy, ← List.append_assoc]
    exact countOcc_parts dblBrace (u ++ x) y (by decide)
  · exact hslash (by rw [he]; exact List.mem_append.mpr (Or.inr hc3))

theorem noSuf_of_close (q r : Str)
    (hdropz : ∀ k, k < q.length → 0 < k → '\x7d' ∈ q.drop k)
    (hrz : '\x7d' ∉ r) :
    ∀ k, 0 < k → k < q.length → startsL (q.drop k) r = false := by
  intro k h1 h2
  cases hv : startsL (q.drop k) r
  · rfl
  · exfalso
    obtain ⟨t, ht⟩ := (startsL_iff _ _).mp hv
    exact hrz (by
      rw [ht]
      exact List.mem_append.mpr (Or.inl (hdropz k h2 h1)))

theorem noSuf_of_head (q r : Str) (c0 : Char) (r2 : Str)
    (hr : r = c0 :: r2) (hc0 : c0 ∉ q) :
    ∀ k, 0 < k → k < q.length → startsL (q.drop k) r = false := by
  intro k h1 h2
  cases hv : startsL (q.drop k) r
  · rfl
  · exfalso
    cases hqd : q.drop k with
    | nil =>
      have hl := List.length_drop k q
      rw [hqd] at hl
      simp at hl
      omega
    | cons d rest =>
      rw [hqd, hr] at hv
      simp only [startsL, Bool.and_eq_true, beq_iff_eq] at hv
      have hd : d ∈ q := by
        have hq2 : q = q.take k ++ q.drop k := (List.take_append_drop k q).symm
        rw [hq2, hqd]
        exact List.mem_append.mpr (Or.inr (by simp))
      rw [hv.1] at hd
      exact hc0 hd

/- ---------- character classes of the numeric renderings ---------- -/

theorem digitChar_mem (d : Nat) : digitChar d ∈ digitChars := by
  have h : ∀ m, m < 10 → List.getD digitChars m ('0') ∈ digitChars := by decide
  exact h (d % 10) (Nat.mod_lt _ (by omega))

theorem natReprAux_mem (fuel : Nat) :
    ∀ n c, c ∈ natReprAux fuel n → c ∈ digitChars := by
  induction fuel with
  | zero => intro n c h; simp [natReprAux] at h
  | succ f ih =>
    intro n c h
    rw [natReprAux] at h
    split at h
    · simp at h
      rw [h]
      exact digitChar_mem n
    · rw [List.mem_append] at h
      rcases h with h | h
      · exact ih _ _ h
      · simp at h
        rw [h]
        exact digitChar_mem _

theorem natRepr_mem (n : Nat) (c : Char) (h : c ∈ natRepr n) :
    c ∈ digitChars := natReprAux_mem _ _ _ h

theorem natReprAux_ne_nil (f n : Nat) : natReprAux (f + 1) n ≠ [] := by
  rw [natReprAux]
  split
  · simp
  · simp

theorem natRepr_ne_nil (n : Nat) : natRepr n ≠ [] := natReprAux_ne_nil n n

theorem fracDigitsND_mem (fuel : Nat) :
    ∀ n d c, c ∈ fracDigitsND fuel n d → c ∈ digitChars := by
  induction fuel with
  | zero => intro n d c h; simp [fracDigitsND] at h
  | succ f ih =>
    intro n d c h
    rw [fracDigitsND] at h
    rw [List.mem_cons] at h
    rcases h with h | h
    · rw [h]; exact digitChar_mem _
    · exact ih _ _ _ h

theorem pyNumRepr_mem (q : ℚ) (c : Char) (h : c ∈ pyNumRepr q) :
    c ∈ str ("-.0123456789") := by
  have hdig : ∀ x, x ∈ digitChars → x ∈ str ("-.0123456789") := by decide
  unfold pyNumRepr at h
  rw [List.mem_append, List.mem_append] at h
  rcases h with (h | h) | h
  · split at h
    · simp at h
      rw [h]; decide
    · simp at h
  · exact hdig c (natRepr_mem _ _ h)
  · rw [List.mem_cons] at h
    rcases h with h | h
    · rw [h]; decide
    · exact hdig c (fracDigitsND_mem _ _ _ _ h)

theorem pyNumRepr_ne_nil (q : ℚ) : pyNumRepr q ≠ [] := by
  unfold pyNumRepr
  apply append_right_ne_nil
  simp

theorem intRepr_mem (v : Int) (c : Char) (h : c ∈ intRepr v) :
    c ∈ str ("-.0123456789") := by
  have hdig : ∀ x, x ∈ digitChars → x ∈ str ("-.0123456789") := by decide
  unfold intRepr at h
  split at h
  · rw [List.mem_cons] at h
    rcases h with h | h
    · rw [h]; decide
    · exact hdig c (natRepr_mem _ _ h)
  · exact hdig c (natRepr_mem _ _ h)

theorem intRepr_ne_nil (v : Int) : intRepr v ≠ [] := by
  unfold intRepr
  split
  · simp
  · exact natRepr_ne_nil _

theorem pyNumRepr_head_ne (q : ℚ) :
    ∃ c t, pyNumRepr q = c :: t ∧ c ≠ '\x7b' := by
  cases hv : pyNumRepr q with
  | nil => exact absurd hv (pyNumRepr_ne_nil q)
  | cons c t =>
    refine ⟨c, t, rfl, ?_⟩
    have hc : c ∈ pyNumRepr q := by rw [hv]; simp
    have := pyNumRepr_mem q c hc
    intro he
    rw [he] at this
    exact absurd this (by decide)

/- ---------- safety facts about the concrete replacement strings ---------- -/

theorem noBB_append (x y : Str) (hx : countOcc dblBrace x = 0)
    (hy : countOcc dblBrace y = 0)
    (hh : ∀ r2, y ≠ '\x7b' :: r2) :
    countOcc dblBrace (x ++ y) = 0 := by
  refine countOcc_append_zero dblBrace x y hx hy ?_
  intro k u hk1 hk2 he
  have hk : k = 1 := by
    have hl : dblBrace.length = 2 := by decide
    omega
  subst hk
  have hd : dblBrace.drop 1 = ['\x7b'] := by decide
  rw [hd]
  cases hyv : y with
  | nil => rfl
  | cons c r2 =>
    cases hbc : ('\x7b' == c) with
    | false => simp [startsL, hbc]
    | true =>
      exfalso
      have hc : '\x7b' = c := beq_iff_eq.mp hbc
      rw [← hc] at hyv
      exact hh r2 hyv

theorem no_head_app (c0 : Char) (t z : Str) (c1 : Char) (hne : c0 ≠ c1) :
    ∀ r2, (c0 :: t) ++ z ≠ c1 :: r2 := by
  intro r2 he
  rw [List.cons_append] at he
  injection he with e1 _
  exact hne e1

theorem no_head_cons (c0 : Char) (t : Str) (c1 : Char) (hne : c0 ≠ c1) :
    ∀ r2, (c0 :: t) ≠ c1 :: r2 := by
  intro r2 he
  injection he with e1 _
  exact hne e1

theorem noBB_pyNum (q : ℚ) : countOcc dblBrace (pyNumRepr q) = 0 :=
  countOcc_zero_of_missing dblBrace (pyNumRepr q) '\x7b' (by decide)
    (fun h => absurd (pyNumRepr_mem q _ h) (by decide))

theorem pyNum_app_no_brace_head (q : ℚ) (z : Str) :
    ∀ r2, pyNumRepr q ++ z ≠ '\x7b' :: r2 := by
  obtain ⟨c, t, he, hc⟩ := pyNumRepr_head_ne q
  rw [he]
  exact no_head_app c t z '\x7b' hc

theorem noBB_coinJs (name : Str) (r : PriceRec)
    (hn : countOcc dblBrace name = 0) :
    countOcc dblBrace (coinJs name r) = 0 := by
  unfold coinJs
  refine noBB_append _ _ hn ?_ (no_head_app ':' _ _ '\x7b' (by decide))
  refine noBB_append _ _ (by decide) ?_ (pyNum_app_no_brace_head _ _)
  refine noBB_append _ _ (noBB_pyNum _) ?_ (no_head_app ',' _ _ '\x7b' (by decide))
  refine noBB_append _ _ (by decide) ?_ (pyNum_app_no_brace_head _ _)
  refine noBB_append _ _ (noBB_pyNum _) ?_ (no_head_app ',' _ _ '\x7b' (by decide))
  refine noBB_append _ _ (by decide) ?_ (pyNum_app_no_brace_head _ _)
  refine noBB_append _ _ (noBB_pyNum _) ?_ (no_head_app ',' _ _ '\x7b' (by decide))
  refine noBB_append _ _ (by decide) ?_ (pyNum_app_no_brace_head _ _)
  exact noBB_append _ _ (noBB_pyNum _) (by decide)
    (no_head_cons ' ' _ '\x7b' (by decide))

theorem noBB_priceJs (p : Prices) : countOcc dblBrace (priceJs p) = 0 := by
  unfold priceJs
  refine noBB_append _ _ (by decide) ?_ (no_head_app 'b' _ _ '\x7b' (by decide))
  refine noBB_append _ _ (noBB_coinJs _ _ (by decide)) ?_
    (no_head_app ',' _ _ '\x7b' (by decide))
  refine noBB_append _ _ (by decide) ?_ (no_head_app 'e' _ _ '\x7b' (by decide))
  refine noBB_append _ _ (noBB_coinJs _ _ (by decide)) ?_
    (no_head_app ',' _ _ '\x7b' (by decide))
  refine noBB_append _ _ (by decide) ?_ (no_head_app 'p' _ _ '\x7b' (by decide))
  refine noBB_append _ _ (noBB_coinJs _ _ (by decide)) ?_
    (no_head_app ',' _ _ '\x7b' (by decide))
  refine noBB_append _ _ (by decide) ?_ (no_head_app 'h' _ _ '\x7b' (by decide))
  refine noBB_append _ _ (noBB_coinJs _ _ (by decide)) ?_
    (no_head_app ',' _ _ '\x7b' (by decide))
  refine noBB_append _ _ (by decide) ?_ (no_head_app 'u' _ _ '\x7b' (by decide))
  refine noBB_append _ _ (noBB_coinJs _ _ (by decide)) ?_
    (no_head_app ',' _ _ '\x7b' (by decide))
  refine noBB_append _ _ (by decide) ?_ (no_head_app 'd' _ _ '\x7b' (by decide))
  exact noBB_append _ _ (noBB_coinJs _ _ (by decide)) (by decide)
    (no_head_cons '\n' _ '\x7b' (by decide))

theorem slash_notin_coinJs (name : Str) (r : PriceRec) (hn : '/' ∉ name) :
    '/' ∉ coinJs name r := by
  unfold coinJs
  intro h
  simp only [List.mem_append] at h
  rcases h with h | h | h | h | h | h | h | h | h | h
  · exact hn h
  · exact absurd h (by decide)
  · exact absurd (pyNumRepr_mem _ _ h) (by decide)
  · exact absurd h (by decide)
  · exact absurd (pyNumRepr_mem _ _ h) (by decide)
  · exact absurd h (by decide)
  · exact absurd (pyNumRepr_mem _ _ h) (by decide)
  · exact absurd h (by decide)
  · exact absurd (pyNumRepr_mem _ _ h) (by decide)
  · exact absurd h (by decide)

theorem slash_notin_priceJs (p : Prices) : '/' ∉ priceJs p := by
  unfold priceJs
  intro h
  simp only [List.mem_append] at h
  rcases h with h | h | h | h | h | h | h | h | h | h | h | h | h
  · exact absurd h (by decide)
  · exact slash_notin_coinJs _ _ (by decide) h
  · exact absurd h (by decide)
  · exact slash_notin_coinJs _ _ (by decide) h
  · exact absurd h (by decide)
  · exact slash_notin_coinJs _ _ (by decide) h
  · exact absurd h (by decide)
  · exact slash_notin_coinJs _ _ (by decide) h
  · exact absurd h (by decide)
  · exact slash_notin_coinJs _ _ (by decide) h
  · exact absurd h (by decide)
  · exact slash_notin_coinJs _ _ (by decide) h
  · exact absurd h (by decide)

theorem priceJs_head (p : Prices) : ∃ t, priceJs p = '\n' :: t := ⟨_, rfl⟩

theorem priceJs_no_brace_end (p : Prices) :
    ∀ u, priceJs p ≠ u ++ ['\x7b'] := by
  obtain ⟨X, e⟩ : ∃ X, priceJs p = X ++ str ("\n        \x7d;\n    ") :=
    ⟨_, by unfold priceJs; simp only [← List.append_assoc]; rfl⟩
  intro u he
  have e1 : (priceJs p).reverse = '\x7b' :: u.reverse := by
    rw [he, List.reverse_append]
    simp
  have e2 : (priceJs p).reverse =
      (str ("\n        \x7d;\n    ")).reverse ++ X.reverse := by
    rw [e, List.reverse_append]
  rw [e2] at e1
  have e3 : (str ("\n        \x7d;\n    ")).reverse =
      ' ' :: (str ("\n        \x7d;\n    ")).reverse.drop 1 := by decide
  rw [e3, List.cons_append] at e1
  injection e1 with e4 _
  exact absurd e4 (by decide)

theorem priceJs_long (p : Prices) : 21 ≤ (priceJs p).length := by
  unfold priceJs
  rw [List.length_append]
  have h1 : 21 ≤
      (str ("\n        const realTimePrices = \x7b\n            ")).length := by
    decide
  omega

/- ---------- decidable facts about the four placeholder tokens ---------- -/

theorem dateTok_facts :
    dateTok ≠ [] ∧ countOcc dblBrace dateTok ≠ 0 ∧ dateTok.length ≤ 20 ∧
    '–' ∉ dateTok ∧ '\n' ∉ dateTok ∧
    (∀ c, c ∈ str ("-.0123456789") → c ∉ dateTok) ∧
    (∀ k, k < dateTok.length → 0 < k →
      (dateTok.take k = ['\x7b'] ∨ countOcc dblBrace (dateTok.take k) ≠ 0 ∨
        '/' ∈ dateTok.take k)) ∧
    (∀ k, k < dateTok.length → 0 < k → '\x7d' ∈ dateTok.drop k) := by decide

theorem priceTok_facts :
    priceTok ≠ [] ∧ countOcc dblBrace priceTok ≠ 0 ∧ priceTok.length ≤ 20 ∧
    '–' ∉ priceTok ∧ '\n' ∉ priceTok ∧
    (∀ c, c ∈ str ("-.0123456789") → c ∉ priceTok) ∧
    (∀ k, k < priceTok.length → 0 < k →
      (priceTok.take k = ['\x7b'] ∨ countOcc dblBrace (priceTok.take k) ≠ 0 ∨
        '/' ∈ priceTok.take k)) ∧
    (∀ k, k < priceTok.length → 0 < k → '\x7d' ∈ priceTok.drop k) := by decide

theorem fgValTok_facts :
    fgValTok ≠ [] ∧ countOcc dblBrace fgValTok ≠ 0 ∧ fgValTok.length ≤ 20 ∧
    '–' ∉ fgValTok ∧ '\n' ∉ fgValTok ∧
    (∀ c, c ∈ str ("-.0123456789") → c ∉ fgValTok) ∧
    (∀ k, k < fgValTok.length → 0 < k →
      (fgValTok.take k = ['\x7b'] ∨ countOcc dblBrace (fgValTok.take k) ≠ 0 ∨
        '/' ∈ fgValTok.take k)) ∧
    (∀ k, k < fgValTok.length → 0 < k → '\x7d' ∈ fgValTok.drop k) := by decide

theorem fgClsTok_facts :
    fgClsTok ≠ [] ∧ countOcc dblBrace fgClsTok ≠ 0 ∧ fgClsTok.length ≤ 20 ∧
    '–' ∉ fgClsTok ∧ '\n' ∉ fgClsTok ∧
    (∀ c, c ∈ str ("-.0123456789") → c ∉ fgClsTok) ∧
    (∀ k, k < fgClsTok.length → 0 < k →
      (fgClsTok.take k = ['\x7b'] ∨ countOcc dblBrace (fgClsTok.take k) ≠ 0 ∨
        '/' ∈ fgClsTok.take k)) ∧
    (∀ k, k < fgClsTok.length → 0 < k → '\x7d' ∈ fgClsTok.drop k) := by decide

theorem sep_date_price :
    (∀ k, k < dateTok.length → startsL priceTok (dateTok.drop k) = false ∧
      startsL (dateTok.drop k) priceTok = false) ∧
    (∀ k, k < priceTok.length → startsL dateTok (priceTok.drop k) = false ∧
      startsL (priceTok.drop k) dateTok = false) := by decide

theorem sep_date_val :
    (∀ k, k < dateTok.length → startsL fgValTok (dateTok.drop k) = false ∧
      startsL (dateTok.drop k) fgValTok = false) ∧
    (∀ k, k < fgValTok.length → startsL dateTok (fgValTok.drop k) = false ∧
      startsL (fgValTok.drop k) dateTok = false) := by decide

theorem sep_date_cls :
    (∀ k, k < dateTok.length → startsL fgClsTok (dateTok.drop k) = false ∧
      startsL (dateTok.drop k) fgClsTok = false) ∧
    (∀ k, k < fgClsTok.length → startsL dateTok (fgClsTok.drop k) = false ∧
      startsL (fgClsTok.drop k) dateTok = false) := by decide

theorem sep_price_val :
    (∀ k, k < priceTok.length → startsL fgValTok (priceTok.drop k) = false ∧
      startsL (priceTok.drop k) fgValTok = false) ∧
    (∀ k, k < fgValTok.length → startsL priceTok (fgValTok.drop k) = false ∧
      startsL (fgValTok.drop k) priceTok = false) := by decide

theorem sep_price_cls :
    (∀ k, k < priceTok.length → startsL fgClsTok (priceTok.drop k) = false ∧
      startsL (priceTok.drop k) fgClsTok = false) ∧
    (∀ k, k < fgClsTok.length → startsL priceTok (fgClsTok.drop k) = false ∧
      startsL (fgClsTok.drop k) priceTok = false) := by decide

theorem sep_val_cls :
    (∀ k, k < fgValTok.length → startsL fgClsTok (fgValTok.drop k) = false ∧
      startsL (fgValTok.drop k) fgClsTok = false) ∧
    (∀ k, k < fgClsTok.length → startsL fgValTok (fgClsTok.drop k) = false ∧
      startsL (fgClsTok.drop k) fgValTok = false) := by decide

/-- C2 amended: rendering a template that contains each recognized
placeholder exactly once yields a document with zero remaining
placeholder tokens, each placeholder being replaced exactly once (each
replacement step sees exactly one occurrence of its token), provided the
externally supplied strings are safe: the week-range labels and the
uppercased classification contain no brace or slash characters and the
uppercased classification does not occur inside any recognized token. -/
theorem c2_amended_render (template : Str) (prices : Prices)
    (fg : SentimentReading) (w1 w2 : Str)
    (h1 : countOcc dateTok template = 1)
    (h2 : countOcc priceTok template = 1)
    (h3 : countOcc fgValTok template = 1)
    (h4 : countOcc fgClsTok template = 1)
    (hw1 : '\x7b' ∉ w1 ∧ '\x7d' ∉ w1 ∧ '/' ∉ w1)
    (hw2 : '\x7b' ∉ w2 ∧ '\x7d' ∉ w2 ∧ '/' ∉ w2)
    (hcls : '\x7b' ∉ upperStr fg.classification ∧
      '\x7d' ∉ upperStr fg.classification ∧
      '/' ∉ upperStr fg.classification)
    (hinf : countOcc (upperStr fg.classification) dateTok = 0 ∧
      countOcc (upperStr fg.classification) priceTok = 0 ∧
      countOcc (upperStr fg.classification) fgValTok = 0 ∧
      countOcc (upperStr fg.classification) fgClsTok = 0) :
    countOcc dateTok template = 1 ∧
    countOcc priceTok (renderStep1 (w1, w2) template) = 1 ∧
    countOcc fgValTok (renderStep2 prices (renderStep1 (w1, w2) template)) = 1 ∧
    countOcc fgClsTok (renderStep3 fg.value
      (renderStep2 prices (renderStep1 (w1, w2) template))) = 1 ∧
    countOcc dateTok (generate_html template prices fg (w1, w2)) = 0 ∧
    countOcc priceTok (generate_html template prices fg (w1, w2)) = 0 ∧
    countOcc fgValTok (generate_html template prices fg (w1, w2)) = 0 ∧
    countOcc fgClsTok (generate_html template prices fg (w1, w2)) = 0 := by
  obtain ⟨hdne, hdbb, hdlen, hddash, hdnl, hddig, hdtake, hddrop⟩ := dateTok_facts
  obtain ⟨hpne, hpbb, hplen, hpdash, hpnl, hpdig, hptake, hpdrop⟩ := priceTok_facts
  obtain ⟨hvne, hvbb, hvlen, hvdash, hvnl, hvdig, hvtake, hvdrop⟩ := fgValTok_facts
  obtain ⟨hcne, hcbb, hclen, hcdash, hcnl, hcdig, hctake, hcdrop⟩ := fgClsTok_facts
  -- safety of the date-range replacement string
  have hR1b : '\x7b' ∉ w1 ++ str (" – ") ++ w2 := by
    intro h
    rw [List.mem_append, List.mem_append] at h
    rcases h with (h | h) | h
    · exact hw1.1 h
    · exact absurd h (by decide)
    · exact hw2.1 h
  have hR1z : '\x7d' ∉ w1 ++ str (" – ") ++ w2 := by
    intro h
    rw [List.mem_append, List.mem_append] at h
    rcases h with (h | h) | h
    · exact hw1.2.1 h
    · exact absurd h (by decide)
    · exact hw2.2.1 h
  have hR1s : '/' ∉ w1 ++ str (" – ") ++ w2 := by
    intro h
    rw [List.mem_append, List.mem_append] at h
    rcases h with (h | h) | h
    · exact hw1.2.2 h
    · exact absurd h (by decide)
    · exact hw2.2.2 h
  have hR1bb : countOcc dblBrace (w1 ++ str (" – ") ++ w2) = 0 :=
    countOcc_zero_of_missing _ _ '\x7b' (by decide) hR1b
  have hR1dash : '–' ∈ w1 ++ str (" – ") ++ w2 :=
    List.mem_append.mpr (Or.inl (List.mem_append.mpr (Or.inr (by decide))))
  have hR1last : ∀ u, w1 ++ str (" – ") ++ w2 ≠ u ++ ['\x7b'] :=
    not_concat_of_notin _ _ hR1b
  -- safety of the price-data replacement string
  have hR2bb := noBB_priceJs prices
  have hR2s := slash_notin_priceJs prices
  have hR2last := priceJs_no_brace_end prices
  obtain ⟨pjt, hpjh⟩ := priceJs_head prices
  have hR2long := priceJs_long prices
  -- safety of the fear-greed value replacement string
  have hR3b : '\x7b' ∉ intRepr fg.value :=
    fun h => absurd (intRepr_mem _ _ h) (by decide)
  have hR3z : '\x7d' ∉ intRepr fg.value :=
    fun h => absurd (intRepr_mem _ _ h) (by decide)
  have hR3s : '/' ∉ intRepr fg.value :=
    fun h => absurd (intRepr_mem _ _ h) (by decide)
  have hR3bb : countOcc dblBrace (intRepr fg.value) = 0 :=
    countOcc_zero_of_missing _ _ '\x7b' (by decide) hR3b
  have hR3last : ∀ u, intRepr fg.value ≠ u ++ ['\x7b'] :=
    not_concat_of_notin _ _ hR3b
  obtain ⟨c3, t3, he3⟩ : ∃ c t, intRepr fg.value = c :: t := by
    cases hv : intRepr fg.value with
    | nil => exact absurd hv (intRepr_ne_nil fg.value)
    | cons c t => exact ⟨c, t, rfl⟩
  have hc3 : c3 ∈ str ("-.0123456789") :=
    intRepr_mem fg.value c3 (by rw [he3]; simp)
  have hc3m : c3 ∈ intRepr fg.value := by rw [he3]; simp
  -- safety of the classification replacement string
  have hR4bb : countOcc dblBrace (upperStr fg.classification) = 0 :=
    countOcc_zero_of_missing _ _ '\x7b' (by decide) hcls.1
  have hR4last : ∀ u, upperStr fg.classification ≠ u ++ ['\x7b'] :=
    not_concat_of_notin _ _ hcls.1
  -- step 1: replace the date token
  have k1p : countOcc priceTok (renderStep1 (w1, w2) template) = 1 := by
    rw [show renderStep1 (w1, w2) template =
      replaceAllAux dateTok (w1 ++ str (" – ") ++ w2) template.length template
      from rfl]
    rw [countOcc_replaceAll_keep dateTok priceTok (w1 ++ str (" – ") ++ w2)
      hpne (countOcc_zero_of_bb _ _ hpbb hR1bb)
      (noPre_of_chars _ _ hptake hR1bb hR1s hR1last)
      (noSuf_of_close _ _ hpdrop hR1z)
      (countOcc_zero_of_missing _ _ '–' hR1dash hpdash)
      sep_date_price.1 sep_date_price.2 template.length template (Nat.le_refl _)]
    exact h2
  have k1v : countOcc fgValTok (renderStep1 (w1, w2) template) = 1 := by
    rw [show renderStep1 (w1, w2) template =
      replaceAllAux dateTok (w1 ++ str (" – ") ++ w2) template.length template
      from rfl]
    rw [countOcc_replaceAll_keep dateTok fgValTok (w1 ++ str (" – ") ++ w2)
      hvne (countOcc_zero_of_bb _ _ hvbb hR1bb)
      (noPre_of_chars _ _ hvtake hR1bb hR1s hR1last)
      (noSuf_of_close _ _ hvdrop hR1z)
      (countOcc_zero_of_missing _ _ '–' hR1dash hvdash)
      sep_date_val.1 sep_date_val.2 template.length template (Nat.le_refl _)]
    exact h3
  have k1c : countOcc fgClsTok (renderStep1 (w1, w2) template) = 1 := by
    rw [show renderStep1 (w1, w2) template =
      replaceAllAux dateTok (w1 ++ str (" – ") ++ w2) template.length template
      from rfl]
    rw [countOcc_replaceAll_keep dateTok fgClsTok (w1 ++ str (" – ") ++ w2)
      hcne (countOcc_zero_of_bb _ _ hcbb hR1bb)
      (noPre_of_chars _ _ hctake hR1bb hR1s hR1last)
      (noSuf_of_close _ _ hcdrop hR1z)
      (countOcc_zero_of_missing _ _ '–' hR1dash hcdash)
      sep_date_cls.1 sep_date_cls.2 template.length template (Nat.le_refl _)]
    exact h4
  have k1d : countOcc dateTok (renderStep1 (w1, w2) template) = 0 := by
    rw [show renderStep1 (w1, w2) template =
      replaceAllAux dateTok (w1 ++ str (" – ") ++ w2) template.length template
      from rfl]
    exact countOcc_replaceAll_self dateTok (w1 ++ str (" – ") ++ w2)
      hdne (countOcc_zero_of_bb _ _ hdbb hR1bb)
      (noPre_of_chars _ _ hdtake hR1bb hR1s hR1last)
      (noSuf_of_close _ _ hddrop hR1z)
      (countOcc_zero_of_missing _ _ '–' hR1dash hddash)
      template.length template (Nat.le_refl _)
  -- step 2: replace the price-data token
  have k2v : countOcc fgValTok
      (renderStep2 prices (renderStep1 (w1, w2) template)) = 1 := by
    rw [show renderStep2 prices (renderStep1 (w1, w2) template) =
      replaceAllAux priceTok (priceJs prices)
        (renderStep1 (w1, w2) template).length (renderStep1 (w1, w2) template)
      from rfl]
    rw [countOcc_replaceAll_keep priceTok fgValTok (priceJs prices)
      hvne (countOcc_zero_of_bb _ _ hvbb hR2bb)
      (noPre_of_chars _ _ hvtake hR2bb hR2s hR2last)
      (noSuf_of_head _ _ '\n' pjt hpjh hvnl)
      (countOcc_zero_of_longer _ _ (by omega))
      sep_price_val.1 sep_price_val.2
      (renderStep1 (w1, w2) template).length _ (Nat.le_refl _)]
    exact k1v
  have k2c : countOcc fgClsTok
      (renderStep2 prices (renderStep1 (w1, w2) template)) = 1 := by
    rw [show renderStep2 prices (renderStep1 (w1, w2) template) =
      replaceAllAux priceTok (priceJs prices)
        (renderStep1 (w1, w2) template).length (renderStep1 (w1, w2) template)
      from rfl]
    rw [countOcc_replaceAll_keep priceTok fgClsTok (priceJs prices)
      hcne (countOcc_zero_of_bb _ _ hcbb hR2bb)
      (noPre_of_chars _ _ hctake hR2bb hR2s hR2last)
      (noSuf_of_head _ _ '\n' pjt hpjh hcnl)
      (countOcc_zero_of_longer _ _ (by omega))
      sep_price_cls.1 sep_price_cls.2
      (renderStep1 (w1, w2) template).length _ (Nat.le_refl _)]
    exact k1c
  have k2d : countOcc dateTok
      (renderStep2 prices (renderStep1 (w1, w2) template)) = 0 := by
    rw [show renderStep2 prices (renderStep1 (w1, w2) template) =
      replaceAllAux priceTok (priceJs prices)
        (renderStep1 (w1, w2) template).length (renderStep1 (w1, w2) template)
      from rfl]
    exact countOcc_replaceAll_zero priceTok dateTok (priceJs prices)
      hdne (countOcc_zero_of_bb _ _ hdbb hR2bb)
      (noPre_of_chars _ _ hdtake hR2bb hR2s hR2last)
      (noSuf_of_head _ _ '\n' pjt hpjh hdnl)
      (countOcc_zero_of_longer _ _ (by omega))
      (renderStep1 (w1, w2) template).length _ (Nat.le_refl _) k1d
  have k2p : countOcc priceTok
      (renderStep2 prices (renderStep1 (w1, w2) template)) = 0 := by
    rw [show renderStep2 prices (renderStep1 (w1, w2) template) =
      replaceAllAux priceTok (priceJs prices)
        (renderStep1 (w1, w2) template).length (renderStep1 (w1, w2) template)
      from rfl]
    exact countOcc_replaceAll_self priceTok (priceJs prices)
      hpne (countOcc_zero_of_bb _ _ hpbb hR2bb)
      (noPre_of_chars _ _ hptake hR2bb hR2s hR2last)
      (noSuf_of_head _ _ '\n' pjt hpjh hpnl)
      (countOcc_zero_of_longer _ _ (by omega))
      (renderStep1 (w1, w2) template).length _ (Nat.le_refl _)
  -- step 3: replace the fear-greed value token
  have k3c : countOcc fgClsTok (renderStep3 fg.value
      (renderStep2 prices (renderStep1 (w1, w2) template))) = 1 := by
    rw [show renderStep3 fg.value
        (renderStep2 prices (renderStep1 (w1, w2) template)) =
      replaceAllAux fgValTok (intRepr fg.value)
        (renderStep2 prices (renderStep1 (w1, w2) template)).length
        (renderStep2 prices (renderStep1 (w1, w2) template)) from rfl]
    rw [countOcc_replaceAll_keep fgValTok fgClsTok (intRepr fg.value)
      hcne (countOcc_zero_of_bb _ _ hcbb hR3bb)
      (noPre_of_chars _ _ hctake hR3bb hR3s hR3last)
      (noSuf_of_close _ _ hcdrop hR3z)
      (countOcc_zero_of_missing _ _ c3 hc3m (hcdig c3 hc3))
      sep_val_cls.1 sep_val_cls.2
      (renderStep2 prices (renderStep1 (w1, w2) template)).length _
      (Nat.le_refl _)]
    exact k2c
  have k3d : countOcc dateTok (renderStep3 fg.value
      (renderStep2 prices (renderStep1 (w1, w2) template))) = 0 := by
    rw [show renderStep3 fg.value
        (renderStep2 prices (renderStep1 (w1, w2) template)) =
      replaceAllAux fgValTok (intRepr fg.value)
        (renderStep2 prices (renderStep1 (w1, w2) template)).length
        (renderStep2 prices (renderStep1 (w1, w2) template)) from rfl]
    exact countOcc_replaceAll_zero fgValTok dateTok (intRepr fg.value)
      hdne (countOcc_zero_of_bb _ _ hdbb hR3bb)
      (noPre_of_chars _ _ hdtake hR3bb hR3s hR3last)
      (noSuf_of_close _ _ hddrop hR3z)
      (countOcc_zero_of_missing _ _ c3 hc3m (hddig c3 hc3))
      (renderStep2 prices (renderStep1 (w1, w2) template)).length _
      (Nat.le_refl _) k2d
  have k3p : countOcc priceTok (renderStep3 fg.value
      (renderStep2 prices (renderStep1 (w1, w2) template))) = 0 := by
    rw [show renderStep3 fg.value
        (renderStep2 prices (renderStep1 (w1, w2) template)) =
      replaceAllAux fgValTok (intRepr fg.value)
        (renderStep2 prices (renderStep1 (w1, w2) template)).length
        (renderStep2 prices (renderStep1 (w1, w2) template)) from rfl]
    exact countOcc_replaceAll_zero fgValTok priceTok (intRepr fg.value)
      hpne (countOcc_zero_of_bb _ _ hpbb hR3bb)
      (noPre_of_chars _ _ hptake hR3bb hR3s hR3last)
      (noSuf_of_close _ _ hpdrop hR3z)
      (countOcc_zero_of_missing _ _ c3 hc3m (hpdig c3 hc3))
      (renderStep2 prices (renderStep1 (w1, w2) template)).length _
      (Nat.le_refl _) k2p
  have k3v : countOcc fgValTok (renderStep3 fg.value
      (renderStep2 prices (renderStep1 (w1, w2) template))) = 0 := by
    rw [show renderStep3 fg.value
        (renderStep2 prices (renderStep1 (w1, w2) template)) =
      replaceAllAux fgValTok (intRepr fg.value)
        (renderStep2 prices (renderStep1 (w1, w2) template)).length
        (renderStep2 prices (renderStep1 (w1, w2) template)) from rfl]
    exact countOcc_replaceAll_self fgValTok (intRepr fg.value)
      hvne (countOcc_zero_of_bb _ _ hvbb hR3bb)
      (noPre_of_chars _ _ hvtake hR3bb hR3s hR3last)
      (noSuf_of_close _ _ hvdrop hR3z)
      (countOcc_zero_of_missing _ _ c3 hc3m (hvdig c3 hc3))
      (renderStep2 prices (renderStep1 (w1, w2) template)).length _
      (Nat.le_refl _)
  -- step 4: replace the fear-greed classification token
  have eGH : generate_html template prices fg (w1, w2) =
      replaceAllAux fgClsTok (upperStr fg.classification)
        (renderStep3 fg.value
          (renderStep2 prices (renderStep1 (w1, w2) template))).length
        (renderStep3 fg.value
          (renderStep2 prices (renderStep1 (w1, w2) template))) := rfl
  have k4d : countOcc dateTok (generate_html template prices fg (w1, w2)) = 0 := by
    rw [eGH]
    exact countOcc_replaceAll_zero fgClsTok dateTok (upperStr fg.classification)
      hdne (countOcc_zero_of_bb _ _ hdbb hR4bb)
      (noPre_of_chars _ _ hdtake hR4bb hcls.2.2 hR4last)
      (noSuf_of_close _ _ hddrop hcls.2.1)
      hinf.1
      (renderStep3 fg.value
        (renderStep2 prices (renderStep1 (w1, w2) template))).length _
      (Nat.le_refl _) k3d
  have k4p : countOcc priceTok (generate_html template prices fg (w1, w2)) = 0 := by
    rw [eGH]
    exact countOcc_replaceAll_zero fgClsTok priceTok (upperStr fg.classification)
      hpne (countOcc_zero_of_bb _ _ hpbb hR4bb)
      (noPre_of_chars _ _ hptake hR4bb hcls.2.2 hR4last)
      (noSuf_of_close _ _ hpdrop hcls.2.1)
      hinf.2.1
      (renderStep3 fg.value
        (renderStep2 prices (renderStep1 (w1, w2) template))).length _
      (Nat.le_refl _) k3p
  have k4v : countOcc fgValTok (generate_html template prices fg (w1, w2)) = 0 := by
    rw [eGH]
    exact countOcc_replaceAll_zero fgClsTok fgValTok (upperStr fg.classification)
      hvne (countOcc_zero_of_bb _ _ hvbb hR4bb)
      (noPre_of_chars _ _ hvtake hR4bb hcls.2.2 hR4last)
      (noSuf_of_close _ _ hvdrop hcls.2.1)
      hinf.2.2.1
      (renderStep3 fg.value
        (renderStep2 prices (renderStep1 (w1, w2) template))).length _
      (Nat.le_refl _) k3v
  have k4c : countOcc fgClsTok (generate_html template prices fg (w1, w2)) = 0 := by
    rw [eGH]
    exact countOcc_replaceAll_self fgClsTok (upperStr fg.classification)
      hcne (countOcc_zero_of_bb _ _ hcbb hR4bb)
      (noPre_of_chars _ _ hctake hR4bb hcls.2.2 hR4last)
      (noSuf_of_close _ _ hcdrop hcls.2.1)
      hinf.2.2.2
      (renderStep3 fg.value
        (renderStep2 prices (renderStep1 (w1, w2) template))).length _
      (Nat.le_refl _)
  exact ⟨h1, k1p, k2v, k3c, k4d, k4p, k4v, k4c⟩

/-- C2 counterexample: with a template holding each recognized
placeholder exactly once but a classification label that itself reads
`\x7b\x7bFEAR_GREED_CLASS\x7d\x7d`, the rendered document still contains that
placeholder token, so the claim fails for some prices/sentiment/week
inputs. -/
theorem c2_counterexample_tokens_remain :
    countOcc dateTok sampleTemplate = 1 ∧
    countOcc priceTok sampleTemplate = 1 ∧
    countOcc fgValTok sampleTemplate = 1 ∧
    countOcc fgClsTok sampleTemplate = 1 ∧
    countOcc fgClsTok (generate_html sampleTemplate samplePrices
      ⟨50, fgClsTok⟩ (str ("Jan"), str ("Feb"))) ≠ 0 := by
  decide

theorem c2_amended_render_witness :
    (countOcc dateTok sampleTemplate = 1 ∧
     countOcc priceTok sampleTemplate = 1 ∧
     countOcc fgValTok sampleTemplate = 1 ∧
     countOcc fgClsTok sampleTemplate = 1 ∧
     '\x7b' ∉ upperStr (str ("Neutral")) ∧
     countOcc (upperStr (str ("Neutral"))) fgClsTok = 0) ∧
    (countOcc priceTok
       (renderStep1 (str ("Jan"), str ("Feb")) sampleTemplate) = 1 ∧
     countOcc dateTok (generate_html sampleTemplate samplePrices
       ⟨50, str ("Neutral")⟩ (str ("Jan"), str ("Feb"))) = 0 ∧
     countOcc fgClsTok (generate_html sampleTemplate samplePrices
       ⟨50, str ("Neutral")⟩ (str ("Jan"), str ("Feb"))) = 0) :=
  ⟨by decide,
    let H := c2_amended_render sampleTemplate samplePrices
      ⟨50, str ("Neutral")⟩ (str ("Jan")) (str ("Feb"))
      (by decide) (by decide) (by decide) (by decide)
      (by decide) (by decide) (by decide)
      ⟨by decide, by decide, by decide, by decide⟩
    ⟨H.2.1, H.2.2.2.2.1, H.2.2.2.2.2.2.2⟩⟩
